import Mathlib

/-!
Formal model of the deterministic evidence-classification pipeline of the
compliance_app repository (Python sources `python-scripts/evidence_process_agents.py`
and `python-scripts/hitl.py`), together with theorems checking its specified
behaviour.

Texts are modelled as `List Char` (ASCII; Python's `\w`, `\d`, `\s` classes are
additionally Unicode-aware, which is irrelevant for the ASCII inputs considered
here).  Python floats are modelled as exact rationals (`ℚ`); every comparison
appearing in the statements below is robust to the float rounding the real code
performs.  Each regular expression of the source is hand-compiled into a
deterministic matcher that reproduces the leftmost-match, greedy-with-
backtracking semantics of Python's `re` on the concrete patterns involved.
-/

namespace ComplianceApp

/-- ASCII whitespace characters recognised by Python's `str.strip` and `\s`. -/
def isPySpace (c : Char) : Bool :=
  c = ' ' || c = '\t' || c = '\n' || c = '\x0d' || c = '\x0c' || c = '\x0b'

/-- Python `str.strip()`: drop whitespace from both ends. -/
def pyStrip (s : List Char) : List Char :=
  ((s.dropWhile isPySpace).reverse.dropWhile isPySpace).reverse

/-- Python `str.lower()` on ASCII text. -/
def lowerList (s : List Char) : List Char :=
  s.map Char.toLower

/-- Does `h` start with `n`? (helper for substring tests). -/
def startsWithL : List Char → List Char → Bool
  | [], _ => true
  | _ :: _, [] => false
  | a :: n, b :: h => a = b && startsWithL n h

/-- Python's `needle in haystack` on strings. -/
def isSubstr (n : List Char) : List Char → Bool
  | [] => startsWithL n []
  | c :: t => startsWithL n (c :: t) || isSubstr n t

/-- Numeric value of an ASCII digit character. -/
def digitVal (c : Char) : Nat :=
  c.toNat - 48

/-- The separator class (dash, slash or dot) used by the date regexes. -/
def isSep (c : Char) : Bool :=
  c = '-' || c = '/' || c = '.'

/-- The separator class (dash or slash) used by the ISO family of `hitl._find_dates`. -/
def isSep2 (c : Char) : Bool :=
  c = '-' || c = '/'

/-- Regex word characters (`\w`), ASCII fragment. -/
def isWordChar (c : Char) : Bool :=
  c.isAlphanum || c = '_'

/-- A `\b` immediately before a word character holds iff the previous character
is absent or not a word character. -/
def boundaryOK : Option Char → Bool
  | none => true
  | some c => !(isWordChar c)

/-- A `\b` immediately after a word character holds iff the next character is
absent or not a word character. -/
def nextNonWord : List Char → Bool
  | [] => true
  | c :: _ => !(isWordChar c)

/-! ### Calendar dates (model of Python's `datetime.date`) -/

/-- A calendar date; `datetime.date` values in the Python sources. -/
structure PyDate where
  year : Nat
  month : Nat
  day : Nat
deriving DecidableEq, Repr

/-- Gregorian leap-year test, as implemented by `datetime.date`. -/
def isLeap (y : Nat) : Bool :=
  y % 4 == 0 && (y % 100 != 0 || y % 400 == 0)

/-- Number of days in a month, as enforced by the `datetime.date` constructor. -/
def daysInMonth (y m : Nat) : Nat :=
  if m == 2 then (if isLeap y then 29 else 28)
  else if m == 4 || m == 6 || m == 9 || m == 11 then 30
  else 31

/-- Validity check performed by the `datetime.date(y, m, d)` constructor
(`MINYEAR = 1`, `MAXYEAR = 9999`). -/
def dateValid (y m d : Nat) : Bool :=
  1 ≤ y && y ≤ 9999 && 1 ≤ m && m ≤ 12 && 1 ≤ d && d ≤ daysInMonth y m

/-- `_to_date_safe` (evidence_process_agents.py): build a date, `none` on
`ValueError`. -/
def to_date_safe (y m d : Nat) : Option PyDate :=
  if dateValid y m d then some ⟨y, m, d⟩ else none

/-- Python's total order on `datetime.date` (lexicographic). -/
def dateLE (a b : PyDate) : Bool :=
  Nat.blt a.year b.year ||
    (a.year == b.year &&
      (Nat.blt a.month b.month ||
        (a.month == b.month && Nat.ble a.day b.day)))

/-- ASCII digit character for `n % 10`. -/
def digitChar (n : Nat) : Char :=
  Char.ofNat (48 + n % 10)

/-- `_iso_date` / `date.isoformat()`: zero-padded `YYYY-MM-DD`. -/
def iso_date (d : PyDate) : String :=
  String.mk [digitChar (d.year / 1000), digitChar (d.year / 100),
    digitChar (d.year / 10), digitChar d.year, '-',
    digitChar (d.month / 10), digitChar d.month, '-',
    digitChar (d.day / 10), digitChar d.day]

/-! ### Hand-compiled matchers for the `evidence_process_agents.py` regexes

`extract_dates` and `_parse_any_date` use the patterns
  A: `\b(\d{4}) S (\d{1,2}) S (\d{1,2})\b`
  B: `\b(\d{1,2}) S (\d{1,2}) S (\d{4})\b`
where `S` stands for the separator class containing dash, slash and dot
(written without spaces in the source),
  C: `\b([A-Za-z]{3,9})\s+(\d{1,2}),\s*(\d{4})\b`
  D: `\b([A-Za-z]{3,9})\s+(\d{1,2})(?:st|nd|rd|th)?\s+(\d{4})\b`
Each matcher below attempts its pattern at the head of the list, given the
preceding character (for `\b`), and returns the captured numbers, the last
consumed character and the remaining input. -/

/-- `(\d{1,2})` followed by a consumed separator, with the greedy backtracking
of Python's `re` (two digits are preferred; a one-digit match is taken only
when the second character is already the separator). -/
def num2sep : List Char → Option (Nat × List Char)
  | a :: b :: c :: rest =>
    if a.isDigit && b.isDigit && isSep c then some (10 * digitVal a + digitVal b, rest)
    else if a.isDigit && isSep b then some (digitVal a, c :: rest)
    else none
  | [a, b] => if a.isDigit && isSep b then some (digitVal a, ([] : List Char)) else none
  | _ => none

/-- `(\d{4})\b`: exactly four digits followed by a word boundary; also returns
the last consumed character. -/
def num4b : List Char → Option (Nat × Char × List Char)
  | a :: b :: c :: d :: rest =>
    if a.isDigit && b.isDigit && c.isDigit && d.isDigit && nextNonWord rest then
      some (1000 * digitVal a + 100 * digitVal b + 10 * digitVal c + digitVal d, d, rest)
    else none
  | _ => none

/-- `(\d{4})` followed by a consumed separator. -/
def num4sep : List Char → Option (Nat × List Char)
  | a :: b :: c :: d :: e :: rest =>
    if a.isDigit && b.isDigit && c.isDigit && d.isDigit && isSep e then
      some (1000 * digitVal a + 100 * digitVal b + 10 * digitVal c + digitVal d, rest)
    else none
  | _ => none

/-- `(\d{1,2})\b` with greedy backtracking; also returns the last consumed
character. -/
def num2b : List Char → Option (Nat × Char × List Char)
  | a :: b :: rest =>
    if a.isDigit && b.isDigit && nextNonWord rest then
      some (10 * digitVal a + digitVal b, b, rest)
    else if a.isDigit && !(isWordChar b) then some (digitVal a, a, b :: rest)
    else none
  | [a] => if a.isDigit then some (digitVal a, a, ([] : List Char)) else none
  | [] => none

/-- Pattern A attempted at the current position. -/
def matchYMDAt (prev : Option Char) (cs : List Char) :
    Option ((Nat × Nat × Nat) × Char × List Char) :=
  if boundaryOK prev then
    match num4sep cs with
    | some (y, r1) =>
      match num2sep r1 with
      | some (mo, r2) =>
        match num2b r2 with
        | some (da, lc, r3) => some ((y, mo, da), lc, r3)
        | none => none
      | none => none
    | none => none
  else none

/-- Pattern B attempted at the current position; captures `(month, day, year)`. -/
def matchMDYAt (prev : Option Char) (cs : List Char) :
    Option ((Nat × Nat × Nat) × Char × List Char) :=
  if boundaryOK prev then
    match num2sep cs with
    | some (mo, r1) =>
      match num2sep r1 with
      | some (da, r2) =>
        match num4b r2 with
        | some (y, lc, r3) => some ((mo, da, y), lc, r3)
        | none => none
      | none => none
    | none => none
  else none

/-- `(\d{1,2})` followed by a consumed comma, with greedy backtracking. -/
def num2comma : List Char → Option (Nat × List Char)
  | a :: b :: c :: rest =>
    if a.isDigit && b.isDigit && c = ',' then some (10 * digitVal a + digitVal b, rest)
    else if a.isDigit && b = ',' then some (digitVal a, c :: rest)
    else none
  | [a, b] => if a.isDigit && b = ',' then some (digitVal a, ([] : List Char)) else none
  | _ => none

/-- Pattern C attempted at the current position; captures
`(month word, day, year)`.  A run of more than 9 letters can never match
`[A-Za-z]{3,9}\s`, since every shorter greedy attempt is still followed by a
letter. -/
def matchMonCommaAt (prev : Option Char) (cs : List Char) :
    Option ((List Char × Nat × Nat) × Char × List Char) :=
  if boundaryOK prev then
    let word := cs.takeWhile Char.isAlpha
    let r1 := cs.dropWhile Char.isAlpha
    if 3 ≤ word.length && word.length ≤ 9 then
      let ws := r1.takeWhile isPySpace
      let r2 := r1.dropWhile isPySpace
      if 1 ≤ ws.length then
        match num2comma r2 with
        | some (da, r3) =>
          match num4b (r3.dropWhile isPySpace) with
          | some (y, lc, r5) => some ((word, da, y), lc, r5)
          | none => none
        | none => none
      else none
    else none
  else none

/-- Optional ordinal suffix `(?:st|nd|rd|th)` (case-sensitive, as in the
source pattern). -/
def ordSuffixDrop : List Char → Option (List Char)
  | a :: b :: rest =>
    if (a = 's' && b = 't') || (a = 'n' && b = 'd') || (a = 'r' && b = 'd')
        || (a = 't' && b = 'h') then some rest
    else none
  | _ => none

/-- Backtracking alternatives for `(\d{1,2})(?:st|nd|rd|th)?`, in the order
Python's `re` explores them. -/
def dayOrdCands : List Char → List (Nat × List Char)
  | a :: b :: rest =>
    (if a.isDigit && b.isDigit then
      (match ordSuffixDrop rest with
       | some r => [(10 * digitVal a + digitVal b, r)]
       | none => []) ++ [(10 * digitVal a + digitVal b, rest)]
     else []) ++
    (if a.isDigit then
      (match ordSuffixDrop (b :: rest) with
       | some r => [(digitVal a, r)]
       | none => []) ++ [(digitVal a, b :: rest)]
     else [])
  | [a] => if a.isDigit then [(digitVal a, ([] : List Char))] else []
  | [] => []

/-- First successful alternative. -/
def firstSome : List (Option α) → Option α
  | [] => none
  | some a :: _ => some a
  | none :: rest => firstSome rest

/-- `\s+(\d{4})\b`. -/
def wsThenYear (cs : List Char) : Option (Nat × Char × List Char) :=
  let ws := cs.takeWhile isPySpace
  let r := cs.dropWhile isPySpace
  if 1 ≤ ws.length then num4b r else none

/-- Pattern D attempted at the current position. -/
def matchMonOrdAt (prev : Option Char) (cs : List Char) :
    Option ((List Char × Nat × Nat) × Char × List Char) :=
  if boundaryOK prev then
    let word := cs.takeWhile Char.isAlpha
    let r1 := cs.dropWhile Char.isAlpha
    if 3 ≤ word.length && word.length ≤ 9 then
      let ws := r1.takeWhile isPySpace
      let r2 := r1.dropWhile isPySpace
      if 1 ≤ ws.length then
        firstSome ((dayOrdCands r2).map (fun p =>
          match wsThenYear p.2 with
          | some (y, lc, r4) => some ((word, p.1, y), lc, r4)
          | none => none))
      else none
    else none
  else none

/-! ### Generic scanning (model of `re.finditer` and `re.search`) -/

/-- `re.finditer`: attempt the matcher at every position, left to right,
resuming after the end of each (non-empty) match.  The fuel argument is
instantiated with the text length, which suffices because every step consumes
at least one character. -/
def scanF (matcher : Option Char → List Char → Option (α × Char × List Char)) :
    Nat → Option Char → List Char → List α
  | 0, _, _ => []
  | _ + 1, _, [] => []
  | fuel + 1, prev, c :: cs =>
    match matcher prev (c :: cs) with
    | some (v, lc, rest) => v :: scanF matcher fuel (some lc) rest
    | none => scanF matcher fuel (some c) cs

/-- All matches of `matcher` over `cs`. -/
def scanAll (matcher : Option Char → List Char → Option (α × Char × List Char))
    (cs : List Char) : List α :=
  scanF matcher cs.length none cs

/-- `re.search`: first match only. -/
def searchF (matcher : Option Char → List Char → Option (α × Char × List Char)) :
    Nat → Option Char → List Char → Option α
  | 0, _, _ => none
  | _ + 1, _, [] => none
  | fuel + 1, prev, c :: cs =>
    match matcher prev (c :: cs) with
    | some (v, _, _) => some v
    | none => searchF matcher fuel (some c) cs

/-- First match of `matcher` over `cs`. -/
def searchAll (matcher : Option Char → List Char → Option (α × Char × List Char))
    (cs : List Char) : Option α :=
  searchF matcher cs.length none cs

/-! ### `_parse_any_date`, `extract_dates` (evidence_process_agents.py) -/

/-- The `_MONTHS` table of evidence_process_agents.py (keys lowercased). -/
def monthsTable : List (String × Nat) :=
  [("jan", 1), ("january", 1), ("feb", 2), ("february", 2), ("mar", 3), ("march", 3),
   ("apr", 4), ("april", 4), ("may", 5), ("jun", 6), ("june", 6), ("jul", 7), ("july", 7),
   ("aug", 8), ("august", 8), ("sep", 9), ("sept", 9), ("september", 9),
   ("oct", 10), ("october", 10), ("nov", 11), ("november", 11), ("dec", 12), ("december", 12)]

/-- `_MONTHS.get(w)` on a lowercased word. -/
def monthsEPA (w : List Char) : Option Nat :=
  (monthsTable.find? (fun p => p.1.toList = w)).map (fun p => p.2)

/-- `_parse_any_date` (evidence_process_agents.py): best-effort parsing, trying
patterns A, B, C, D in order; only the first `re.search` match of each pattern
is considered, and an invalid calendar combination falls through to the next
pattern. -/
def parse_any_date (text : List Char) : Option PyDate :=
  let s := pyStrip text
  match (match searchAll matchYMDAt s with
         | some (y, mo, da) => to_date_safe y mo da
         | none => none) with
  | some d => some d
  | none =>
    match (match searchAll matchMDYAt s with
           | some (mo, da, y) => to_date_safe y mo da
           | none => none) with
    | some d => some d
    | none =>
      match (match searchAll matchMonCommaAt s with
             | some (w, da, y) =>
               match monthsEPA (lowerList w) with
               | some mo => to_date_safe y mo da
               | none => none
             | none => none) with
      | some d => some d
      | none =>
        match searchAll matchMonOrdAt s with
        | some (w, da, y) =>
          match monthsEPA (lowerList w) with
          | some mo => to_date_safe y mo da
          | none => none
        | none => none

/-- Build an ISO string for a numeric match when it is a real calendar date. -/
def toDateSafeIso (y mo da : Nat) : Option String :=
  (to_date_safe y mo da).map iso_date

/-- Keep the first record for each key; later records with an already-seen key
are dropped (the `seen`-set loops of both extractors). -/
def dedupFirstByAux (key : α → String) : List α → List String → List α
  | [], _ => []
  | x :: rest, seen =>
    if key x ∈ seen then dedupFirstByAux key rest seen
    else x :: dedupFirstByAux key rest (key x :: seen)

/-- Deduplicate by key, preserving first occurrences. -/
def dedupFirstBy (key : α → String) (l : List α) : List α :=
  dedupFirstByAux key l []

/-- The `found` list of `extract_dates`: pattern-A matches, then pattern-B
matches, then pattern-C matches, each validated through `_to_date_safe`. -/
def extractFound (text : List Char) : List String :=
  (scanAll matchYMDAt text).filterMap (fun t => toDateSafeIso t.1 t.2.1 t.2.2) ++
  (scanAll matchMDYAt text).filterMap (fun t => toDateSafeIso t.2.2 t.1 t.2.1) ++
  (scanAll matchMonCommaAt text).filterMap (fun t =>
    match monthsEPA (lowerList t.1) with
    | some mo => toDateSafeIso t.2.2 mo t.2.1
    | none => none)

/-- `extract_dates` (evidence_process_agents.py): collect ISO dates from the
three pattern families, then deduplicate preserving order; empty text returns
an empty list. -/
def extract_dates (text : List Char) : List String :=
  if text = [] then [] else dedupFirstBy id (extractFound text)

/-! ### Numeric rounding (model of Python's `round(x, 2)`) -/

/-- Round half to even on exact rationals (Python's `round` on the idealized
value; the real code rounds the nearest binary float instead, a difference
irrelevant to every comparison below). -/
def rhe (q : ℚ) : ℤ :=
  if q - ⌊q⌋ < 1 / 2 then ⌊q⌋
  else if (1 : ℚ) / 2 < q - ⌊q⌋ then ⌊q⌋ + 1
  else if 2 ∣ ⌊q⌋ then ⌊q⌋ else ⌊q⌋ + 1

/-- Python `round(q, 2)`. -/
def round2 (q : ℚ) : ℚ :=
  ((rhe (100 * q) : ℤ) : ℚ) / 100

/-! ### `check_date_range` (evidence_process_agents.py) -/

/-- Two-digit numeral. -/
def twoDig (a b : Char) : Nat :=
  10 * digitVal a + digitVal b

/-- Fractional-seconds digits of an ISO time. -/
def validFrac : List Char → Bool
  | [] => false
  | l => l.all Char.isDigit && l.length ≤ 6

/-- `HH`, `HH:MM`, `HH:MM:SS` or `HH:MM:SS.ffffff` with in-range fields. -/
def validTime : List Char → Bool
  | [a, b] => a.isDigit && b.isDigit && twoDig a b < 24
  | [a, b, ':', c, d] =>
    a.isDigit && b.isDigit && c.isDigit && d.isDigit && twoDig a b < 24 && twoDig c d < 60
  | [a, b, ':', c, d, ':', e, f] =>
    a.isDigit && b.isDigit && c.isDigit && d.isDigit && e.isDigit && f.isDigit &&
      twoDig a b < 24 && twoDig c d < 60 && twoDig e f < 60
  | a :: b :: ':' :: c :: d :: ':' :: e :: f :: '.' :: frac =>
    a.isDigit && b.isDigit && c.isDigit && d.isDigit && e.isDigit && f.isDigit &&
      twoDig a b < 24 && twoDig c d < 60 && twoDig e f < 60 && validFrac frac
  | _ => false

/-- Model of `datetime.fromisoformat(x).date()` for the `YYYY-MM-DD` and
`YYYY-MM-DD[T ]time` forms relevant to this repository; more exotic ISO-8601
variants accepted by recent Python versions are outside the model (the
theorems below only assume the result of this parse). -/
def pyFromIso (s : List Char) : Option PyDate :=
  match s with
  | y1 :: y2 :: y3 :: y4 :: '-' :: m1 :: m2 :: '-' :: d1 :: d2 :: rest =>
    if y1.isDigit && y2.isDigit && y3.isDigit && y4.isDigit && m1.isDigit && m2.isDigit
        && d1.isDigit && d2.isDigit then
      let y := 1000 * digitVal y1 + 100 * digitVal y2 + 10 * digitVal y3 + digitVal y4
      match rest with
      | [] => to_date_safe y (twoDig m1 m2) (twoDig d1 d2)
      | c :: tr =>
        if (c = 'T' || c = ' ') && validTime tr then to_date_safe y (twoDig m1 m2) (twoDig d1 d2)
        else none
    else none
  | _ => none

/-- `x.replace("Z", "")`: remove every `Z`. -/
def stripZ (s : List Char) : List Char :=
  s.filter (fun c => c ≠ 'Z')

/-- The `_parse_boundary` closure inside `check_date_range`:
`datetime.fromisoformat` on the `Z`-stripped string, falling back to
`_parse_any_date` on the original string. -/
def parse_boundary (x : List Char) : Option PyDate :=
  match pyFromIso (stripZ x) with
  | some d => some d
  | none => parse_any_date x

/-- Result dictionary of `check_date_range`. -/
structure RangeResult where
  within : Bool
  parsed_date : Option String
  reason : String
deriving DecidableEq, Repr

/-- `check_date_range` (evidence_process_agents.py): parse the subject date,
then both boundaries, and compare inclusively. -/
def check_date_range (date_str start_str end_str : List Char) : RangeResult :=
  match parse_any_date date_str with
  | none => ⟨false, none, "unrecognized date format"⟩
  | some parsed =>
    match parse_boundary start_str, parse_boundary end_str with
    | some s, some e =>
      if dateLE s parsed && dateLE parsed e then ⟨true, some (iso_date parsed), "in range"⟩
      else ⟨false, some (iso_date parsed), "out of range"⟩
    | _, _ => ⟨false, some (iso_date parsed), "invalid range"⟩

/-- The PASS/FAIL status derived from a range result
(`date_guard_pipeline`, evidence_process_agents.py line 965). -/
def check_status (r : RangeResult) : String :=
  if r.within then "PASS" else "FAIL"

/-! ### Hand-compiled matchers for the `hitl._find_dates` regexes

The three families are
  ISO: `\b(20dd|19dd) T (0?[1-9]|1[0-2]) T (0?[1-9]|[12]d|3[01])\b` where `T`
    is the two-character separator class containing dash and slash, and `d`
    abbreviates `\d`;
  MDY: `\b(month names)\s+(\d{1,2})(?:,)?\s+(\d{4})\b` (case-insensitive);
  DMY: `\b(\d{1,2})\s+(month names)\s+(\d{4})\b` (case-insensitive). -/

/-- A digit in `[1-9]`. -/
def digit19 (c : Char) : Bool :=
  c.isDigit && c ≠ '0'

/-- A digit in `[0-2]`. -/
def digit02 (c : Char) : Bool :=
  c = '0' || c = '1' || c = '2'

/-- `(20\d{2}|19\d{2})` followed by a consumed dash-or-slash separator. -/
def year1920sep : List Char → Option (Nat × List Char)
  | a :: b :: c :: d :: e :: rest =>
    if ((a = '2' && b = '0') || (a = '1' && b = '9')) && c.isDigit && d.isDigit && isSep2 e then
      some (1000 * digitVal a + 100 * digitVal b + 10 * digitVal c + digitVal d, rest)
    else none
  | _ => none

/-- `(0?[1-9]|1[0-2])` followed by a consumed dash-or-slash separator, with the
alternation explored in source order. -/
def hMonthSep : List Char → Option (Nat × List Char)
  | a :: b :: c :: rest =>
    if a = '0' && digit19 b && isSep2 c then some (digitVal b, rest)
    else if digit19 a && isSep2 b then some (digitVal a, c :: rest)
    else if a = '1' && digit02 b && isSep2 c then some (10 + digitVal b, rest)
    else none
  | [a, b] => if digit19 a && isSep2 b then some (digitVal a, ([] : List Char)) else none
  | _ => none

/-- `(0?[1-9]|[12]\d|3[01])\b`, alternation in source order; also returns the
last consumed character. -/
def hDayB : List Char → Option (Nat × Char × List Char)
  | a :: b :: rest =>
    if a = '0' && digit19 b && nextNonWord rest then some (digitVal b, b, rest)
    else if digit19 a && !(isWordChar b) then some (digitVal a, a, b :: rest)
    else if (a = '1' || a = '2') && b.isDigit && nextNonWord rest then
      some (10 * digitVal a + digitVal b, b, rest)
    else if a = '3' && (b = '0' || b = '1') && nextNonWord rest then
      some (30 + digitVal b, b, rest)
    else none
  | [a] => if digit19 a then some (digitVal a, a, ([] : List Char)) else none
  | [] => none

/-- The ISO family of `_find_dates` attempted at the current position. -/
def matchHISOAt (prev : Option Char) (cs : List Char) :
    Option ((Nat × Nat × Nat) × Char × List Char) :=
  if boundaryOK prev then
    match year1920sep cs with
    | some (y, r1) =>
      match hMonthSep r1 with
      | some (mo, r2) =>
        match hDayB r2 with
        | some (da, lc, r3) => some ((y, mo, da), lc, r3)
        | none => none
      | none => none
    | none => none
  else none

/-- The month-name alternation
`Jan(?:uary)?|Feb(?:ruary)?|...|Dec(?:ember)?` expanded into the ordered list
of spellings Python's `re` would try (each greedy optional suffix first). -/
def monthSpellings : List (List Char) :=
  ["january".toList, "jan".toList, "february".toList, "feb".toList,
   "march".toList, "mar".toList, "april".toList, "apr".toList, "may".toList,
   "june".toList, "jun".toList, "july".toList, "jul".toList,
   "august".toList, "aug".toList, "sept".toList, "september".toList, "sep".toList,
   "october".toList, "oct".toList, "november".toList, "nov".toList,
   "december".toList, "dec".toList]

/-- Case-insensitively consume `sp` from the head of the input. -/
def ciDrop : List Char → List Char → Option (List Char)
  | [], cs => some cs
  | a :: sp, c :: cs => if Char.toLower c = a then ciDrop sp cs else none
  | _ :: _, [] => none

/-- `_month_name_to_num` lookup with default 0 (hitl.py); its table holds the
same key-value pairs as `_MONTHS`. -/
def month_name_to_num (w : List Char) : Nat :=
  (monthsEPA w).getD 0

/-- Backtracking alternatives for `(\d{1,2})(?:,)?`, in exploration order. -/
def dayCommaCands : List Char → List (Nat × List Char)
  | a :: b :: rest =>
    (if a.isDigit && b.isDigit then
      (match rest with
       | ',' :: r => [(10 * digitVal a + digitVal b, r)]
       | _ => []) ++ [(10 * digitVal a + digitVal b, rest)]
     else []) ++
    (if a.isDigit then
      (if b = ',' then [(digitVal a, rest)] else []) ++ [(digitVal a, b :: rest)]
     else [])
  | [a] => if a.isDigit then [(digitVal a, ([] : List Char))] else []
  | [] => []

/-- `\s+(\d{1,2})(?:,)?\s+(\d{4})\b` after a month name. -/
def hmdyAfterName (cs : List Char) : Option (Nat × Nat × Char × List Char) :=
  let ws := cs.takeWhile isPySpace
  let r := cs.dropWhile isPySpace
  if 1 ≤ ws.length then
    firstSome ((dayCommaCands r).map (fun p =>
      match wsThenYear p.2 with
      | some (y, lc, r4) => some (p.1, y, lc, r4)
      | none => none))
  else none

/-- The MDY family of `_find_dates` attempted at the current position;
captures `(month, day, year)`. -/
def matchHMDYAt (prev : Option Char) (cs : List Char) :
    Option ((Nat × Nat × Nat) × Char × List Char) :=
  if boundaryOK prev then
    firstSome (monthSpellings.map (fun sp =>
      match ciDrop sp cs with
      | some r1 =>
        match hmdyAfterName r1 with
        | some (da, y, lc, r4) => some ((month_name_to_num sp, da, y), lc, r4)
        | none => none
      | none => none))
  else none

/-- Greedy alternatives for a plain `(\d{1,2})`. -/
def day2Cands : List Char → List (Nat × List Char)
  | a :: b :: rest =>
    (if a.isDigit && b.isDigit then [(10 * digitVal a + digitVal b, rest)] else []) ++
    (if a.isDigit then [(digitVal a, b :: rest)] else [])
  | [a] => if a.isDigit then [(digitVal a, ([] : List Char))] else []
  | [] => []

/-- The DMY family of `_find_dates` attempted at the current position;
captures `(day, month, year)`. -/
def matchHDMYAt (prev : Option Char) (cs : List Char) :
    Option ((Nat × Nat × Nat) × Char × List Char) :=
  if boundaryOK prev then
    firstSome ((day2Cands cs).map (fun p =>
      let ws := p.2.takeWhile isPySpace
      let r := p.2.dropWhile isPySpace
      if 1 ≤ ws.length then
        firstSome (monthSpellings.map (fun sp =>
          match ciDrop sp r with
          | some r2 =>
            match wsThenYear r2 with
            | some (y, lc, r3) => some ((p.1, month_name_to_num sp, y), lc, r3)
            | none => none
          | none => none))
      else none))
  else none

/-- `re.finditer` with spans: like `scanF` but also producing the start and
end offset of each match. -/
def scanPosF (matcher : Option Char → List Char → Option (α × Char × List Char)) :
    Nat → Option Char → Nat → List Char → List (α × Nat × Nat)
  | 0, _, _, _ => []
  | _ + 1, _, _, [] => []
  | fuel + 1, prev, pos, c :: cs =>
    match matcher prev (c :: cs) with
    | some (v, lc, rest) =>
      (v, pos, pos + ((c :: cs).length - rest.length)) ::
        scanPosF matcher fuel (some lc) (pos + ((c :: cs).length - rest.length)) rest
    | none => scanPosF matcher fuel (some c) (pos + 1) cs

/-- All matches of `matcher` over `cs`, with spans. -/
def scanPos (matcher : Option Char → List Char → Option (α × Char × List Char))
    (cs : List Char) : List (α × Nat × Nat) :=
  scanPosF matcher cs.length none 0 cs

/-- A candidate dictionary produced by `_find_dates` (hitl.py). -/
structure DateRec where
  iso : String
  span : Nat × Nat
  label : String
deriving DecidableEq, Repr

/-- The `out` list of `_find_dates`: ISO-family matches, then MDY, then DMY,
each validated through `_safe_iso` (invalid calendar combinations are
dropped). -/
def findOut (text : List Char) : List DateRec :=
  (scanPos matchHISOAt text).filterMap (fun m =>
    (toDateSafeIso m.1.1 m.1.2.1 m.1.2.2).map (fun i => ⟨i, (m.2.1, m.2.2), "iso"⟩)) ++
  (scanPos matchHMDYAt text).filterMap (fun m =>
    (toDateSafeIso m.1.2.2 m.1.1 m.1.2.1).map (fun i => ⟨i, (m.2.1, m.2.2), "mdy"⟩)) ++
  (scanPos matchHDMYAt text).filterMap (fun m =>
    (toDateSafeIso m.1.2.2 m.1.2.1 m.1.1).map (fun i => ⟨i, (m.2.1, m.2.2), "dmy"⟩))

/-- `_find_dates` (hitl.py): the three families' candidates, deduplicated by
ISO value keeping the first occurrence. -/
def find_dates (text : List Char) : List DateRec :=
  dedupFirstBy DateRec.iso (findOut text)

/-! ### `_choose_evidence_date` (hitl.py) -/

/-- The contextual keyword list of `_choose_evidence_date`. -/
def chooserKeywords : List String :=
  ["report date", "effective", "as of", "evidence date", "signed", "generated",
   "issued", "date:"]

/-- The lower-cased context window around a candidate's span: 80 characters
before to 40 after, clamped to the text (the truncated `Nat` subtraction
models Python's `max(0, span0 - 80)`). -/
def ctxWindow (text : List Char) (c : DateRec) : List Char :=
  let start := c.span.1 - 80
  let stop := min text.length (c.span.2 + 40)
  lowerList ((text.drop start).take (stop - start))

/-- The keywords found in the candidate's context window, in list order. -/
def ctxHits (text : List Char) (c : DateRec) : List String :=
  chooserKeywords.filter (fun kw => isSubstr kw.toList (ctxWindow text c))

/-- Python `int(s)` on a short string: optional sign and decimal digits
(underscore separators are irrelevant here). -/
def pyInt (s : List Char) : Option Int :=
  match pyStrip s with
  | '-' :: ds =>
    if ds ≠ [] && ds.all Char.isDigit then
      some (-(ds.foldl (fun acc c => 10 * acc + digitVal c) 0 : Nat))
    else none
  | '+' :: ds =>
    if ds ≠ [] && ds.all Char.isDigit then
      some ((ds.foldl (fun acc c => 10 * acc + digitVal c) 0 : Nat))
    else none
  | ds =>
    if ds ≠ [] && ds.all Char.isDigit then
      some ((ds.foldl (fun acc c => 10 * acc + digitVal c) 0 : Nat))
    else none

/-- The recency nudge `(int(iso[0:4]) - 2000) * 0.001`, zero when the year
digits do not parse (the swallowed exception branch). -/
def recencyNudge (c : DateRec) : ℚ :=
  match pyInt (c.iso.toList.take 4) with
  | some y => ((y : ℚ) - 2000) * (1 / 1000)
  | none => 0

/-- The score `_choose_evidence_date` computes for one candidate: base 0.5,
plus 0.2 + 0.1 * min(3, hits) when at least one contextual keyword hits,
plus the recency nudge. -/
def chooseScore (text : List Char) (c : DateRec) : ℚ :=
  (if (ctxHits text c).length ≠ 0 then
    (1 : ℚ) / 2 + (2 / 10 + (1 / 10) * ((min 3 (ctxHits text c).length : Nat) : ℚ))
   else (1 : ℚ) / 2) + recencyNudge c

/-- The chooser's output record. -/
structure DateChoice where
  evidence_date : Option String
  confidence : ℚ
  rationale : String
deriving DecidableEq, Repr

/-- Rationale text for a candidate. -/
def hitsRationale (hits : List String) : String :=
  "Context hits: " ++ (if hits = [] then "none" else String.intercalate ", " hits)

/-- The best-candidate scan of `_choose_evidence_date`: keep the first
strictly-highest score. -/
def chooseFold (text : List Char) : List DateRec → ℚ × Option DateChoice → ℚ × Option DateChoice
  | [], acc => acc
  | c :: rest, (bestScore, best) =>
    if bestScore < chooseScore text c then
      chooseFold text rest (chooseScore text c,
        some ⟨some c.iso, min (99 / 100) (round2 (chooseScore text c)),
          hitsRationale (ctxHits text c)⟩)
    else chooseFold text rest (bestScore, best)

/-- `_choose_evidence_date` (hitl.py). -/
def choose_evidence_date (text : List Char) (cands : List DateRec) : DateChoice :=
  match (chooseFold text cands (-1, none)).2 with
  | some b => b
  | none => ⟨none, 0, "No dates detected"⟩

/-! ### `_stage_control_candidates` (hitl.py) -/

/-- A catalog row `{id, control_id, specification}`; `title` is kept because
the stage reads `row.get('title')` as a fallback (absent from every loader
row, hence defaulted to the empty string). -/
structure SpecRow where
  id : String
  control_id : String
  specification : String
  title : String := ""
deriving DecidableEq, Repr

/-- The character class of the tokenizer regex (lower-case letters and
digits; the text is lower-cased before tokenizing). -/
def alnumLower (c : Char) : Bool :=
  ('a' ≤ c && c ≤ 'z') || c.isDigit

/-- Maximal runs of tokenizer characters (`re.findall` of the run pattern). -/
def alnumRunsF : Nat → List Char → List (List Char)
  | 0, _ => []
  | _ + 1, [] => []
  | fuel + 1, c :: cs =>
    if alnumLower c then
      (c :: cs.takeWhile alnumLower) :: alnumRunsF fuel (cs.dropWhile alnumLower)
    else alnumRunsF fuel cs

/-- All tokenizer runs of a text. -/
def alnumRuns (s : List Char) : List (List Char) :=
  alnumRunsF s.length s

/-- The fixed stop-word set of `_stage_control_candidates`. -/
def stopWords : List String :=
  ["the", "and", "for", "with", "that", "this", "from", "are", "was", "were",
   "have", "has", "had", "shall", "should", "will", "may", "can", "must", "of",
   "to", "in", "on", "by", "or", "an", "a", "as", "be", "is", "it", "at", "we",
   "you", "they", "their", "our"]

/-- Tokenize: alphanumeric runs, dropping stop words and tokens of length
at most 2. -/
def evTokens (t : List Char) : List String :=
  ((alnumRuns t).map (fun r => String.mk r)).filter
    (fun w => !(stopWords.contains w) && decide (2 < w.length))

/-- Python `str.strip()` on a `String`. -/
def stripStr (s : String) : String :=
  String.mk (pyStrip s.toList)

/-- `row.get('specification') or row.get('title') or ''`. -/
def specTextOf (row : SpecRow) : String :=
  if row.specification ≠ "" then row.specification
  else if row.title ≠ "" then row.title
  else ""

/-- The spec's token list, capped at its first 120 tokens. -/
def specTokens (row : SpecRow) : List String :=
  (evTokens (lowerList (stripStr (specTextOf row)).toList)).take 120

/-- One step of the overlap loop: a token present in the evidence counts map
adds `1.0 + 0.1 * min(5, count - 1)` and is recorded in the first six hits. -/
def overlapStep (evCount : String → Nat) (acc : ℚ × List String) (t : String) :
    ℚ × List String :=
  if evCount t ≠ 0 then
    (acc.1 + (1 + (1 / 10) * ((min 5 (evCount t - 1) : Nat) : ℚ)),
     if acc.2.length < 6 then acc.2 ++ [t] else acc.2)
  else acc

/-- Overlap score and matched-token list of one catalog row against the
(lower-cased) evidence text. -/
def rowOverlap (text : List Char) (row : SpecRow) : ℚ × List String :=
  (specTokens row).foldl (overlapStep (fun t => (evTokens text).count t)) (0, [])

/-- The raw overlap score of one row. -/
def rowScoreVal (text : List Char) (row : SpecRow) : ℚ :=
  (rowOverlap text row).1

/-- A candidate dictionary of the control-candidates stage. -/
structure Cand where
  id : String
  uuid : Option String
  label : String
  confidence : ℚ
  rationale : String
deriving DecidableEq, Repr

/-- The `scored.append` branch: rows with empty (stripped) code or spec text
are skipped, as are rows with zero overlap. -/
def rowCand (text : List Char) (row : SpecRow) : Option Cand :=
  if stripStr row.control_id = "" ∨ stripStr (specTextOf row) = "" then none
  else if 0 < rowScoreVal text row then
    some ⟨stripStr row.control_id,
      if stripStr row.id = "" then none else some (stripStr row.id),
      stripStr row.control_id, rowScoreVal text row,
      "Spec overlap: " ++ String.intercalate ", " (rowOverlap text row).2⟩
  else none

/-- Python `max` over a list of rationals (callers guarantee non-emptiness). -/
def listMaxQ : List ℚ → ℚ
  | [] => 0
  | x :: xs => xs.foldl max x

/-- Confidence normalization `0.5 + 0.49 * (score / max)`, rounded to two
decimals. -/
def normCand (maxS : ℚ) (x : Cand) : Cand :=
  { x with confidence := round2 (1 / 2 + (49 / 100) * (x.confidence / maxS)) }

/-- `max(x['confidence'] for x in scored)` over the scored rows. -/
def catalogMax (specs : List SpecRow) (text : List Char) : ℚ :=
  listMaxQ ((specs.filterMap (rowCand text)).map Cand.confidence)

/-- The catalog-driven branch: score every row, and when at least one scored,
normalize by the maximum score (`or 1.0` guarding against a zero maximum),
sort by confidence descending (Python's stable sort) and keep the top 7. -/
def catalogCands (specs : List SpecRow) (text : List Char) : List Cand :=
  if specs.filterMap (rowCand text) ≠ [] then
    (((specs.filterMap (rowCand text)).map
        (normCand (if catalogMax specs text = 0 then 1 else catalogMax specs text))).mergeSort
      (fun a b => decide (b.confidence ≤ a.confidence))).take 7
  else []

/-- The five fallback keyword rules. -/
def fallbackRules : List (String × String × List String) :=
  [("CTRL-PASS-001", "Password Policy",
    ["password policy", "passwords", "complexity", "rotate", "expiration", "length"]),
   ("CTRL-AUTH-001", "Multi-Factor Authentication",
    ["mfa", "2fa", "multi-factor", "two-factor", "otp", "okta"]),
   ("CTRL-ENC-001", "Encryption Controls",
    ["encryption", "aes-256", "tls", "at rest", "in transit", "kms"]),
   ("CTRL-LOG-001", "Logging and Monitoring",
    ["logging", "audit log", "cloudtrail", "siem", "splunk", "datadog", "cloudwatch"]),
   ("CTRL-IR-001", "Incident Response",
    ["incident response", "irp", "playbook", "pagerduty", "sev", "major incident"])]

/-- One fallback rule evaluated on the text: confidence
`min(0.4 + 0.1 * hits, 0.95)` rounded to two decimals. -/
def ruleCand (text : List Char) (r : String × String × List String) : Option Cand :=
  if r.2.2.filter (fun k => isSubstr k.toList text) ≠ [] then
    some ⟨r.1, none, r.2.1,
      round2 (min ((2 : ℚ) / 5 +
        (1 / 10) * (((r.2.2.filter (fun k => isSubstr k.toList text)).length : Nat) : ℚ))
        (19 / 20)),
      "Matched: " ++ String.intercalate ", " (r.2.2.filter (fun k => isSubstr k.toList text))⟩
  else none

/-- The fallback branch: keyword rules in order, or the single generic
candidate with confidence 0.25. -/
def fallbackCands (text : List Char) : List Cand :=
  if fallbackRules.filterMap (ruleCand text) = [] then
    [⟨"CTRL-GEN-000", none, "General Control", 1 / 4, "No specific overlaps detected"⟩]
  else fallbackRules.filterMap (ruleCand text)

/-- The combined, stripped, lower-cased matching text
`((actions_summary or "") + "\n" + (text or "")).strip().lower()`. -/
def stageText (actions_summary text : List Char) : List Char :=
  lowerList (pyStrip (actions_summary ++ '\n' :: text))

/-- `_stage_control_candidates` (hitl.py).  The catalog normally comes from
`_get_control_specs_cached()`; that effectful read is passed here as the
`specs` parameter. -/
def stage_control_candidates (specs : List SpecRow) (actions_summary text : List Char) :
    List Cand :=
  if (if specs ≠ [] then catalogCands specs (stageText actions_summary text) else []) = [] then
    fallbackCands (stageText actions_summary text)
  else if specs ≠ [] then catalogCands specs (stageText actions_summary text) else []

/-! ### `_get_control_specs_cached` (hitl.py / evidence_process_agents.py)

Both files hold the identical caching logic over module globals
`_SPECS_CACHE` / `_SPECS_CACHE_AT` with a 15-minute TTL.  The globals are
modelled as an explicit state record, `time.time()` as the `now` parameter,
and the two loaders (which absorb every network/file error into `None`) as
`Option` parameters. -/

/-- The module-global cache state. -/
structure SpecsCache where
  cache : Option (List SpecRow)
  cacheAt : Option ℚ
deriving Repr

/-- The freshness test `_SPECS_CACHE and _SPECS_CACHE_AT and
(now - _SPECS_CACHE_AT) < 15 * 60` with Python truthiness (an empty cached
list and a zero timestamp are both falsy). -/
def cacheFresh (st : SpecsCache) (now : ℚ) : Bool :=
  match st.cache, st.cacheAt with
  | some l, some t => !l.isEmpty && decide (t ≠ 0) && decide (now - t < 900)
  | _, _ => false

/-- `_load_specs_from_supabase() or _load_specs_local_fallback() or []`
(Python `or`: `None` and the empty list are both falsy). -/
def pyOrSpecs (remote loc : Option (List SpecRow)) : List SpecRow :=
  match remote with
  | some l =>
    if l ≠ [] then l
    else match loc with
      | some l2 => if l2 ≠ [] then l2 else []
      | none => []
  | none =>
    match loc with
    | some l2 => if l2 ≠ [] then l2 else []
    | none => []

/-- `_get_control_specs_cached`: return the fresh cached list, otherwise
reload from the two sources and overwrite both globals. -/
def get_control_specs_cached (st : SpecsCache) (now : ℚ)
    (remote loc : Option (List SpecRow)) : List SpecRow × SpecsCache :=
  if cacheFresh st now then (st.cache.getD [], st)
  else
    let specs := pyOrSpecs remote loc
    (specs, ⟨some specs, some now⟩)

/-! ### `date_guard_pipeline` and `run_supervisor` (evidence_process_agents.py)

The LLM extraction step (`_llm_extract_date_core`) and the control-assigner
call are external, non-deterministic services; following the repository's
injectable-capability design they are modelled as parameters: `llmDate` /
`llmReason` are the `date` and `reason` fields the extractor returned, and
`assign_control_id` / `assign_rationale` the parsed fields of the assigner's
JSON reply. -/

/-- The `{status, parsed_date, reason}` record of the date-guard stage. -/
structure DateCheck where
  status : String
  parsed_date : Option String
  reason : String
deriving DecidableEq, Repr

/-- `"; ".join([p for p in reason_parts if p])`. -/
def joinReasonParts (parts : List String) : String :=
  String.intercalate "; " (parts.filter (fun p => p ≠ ""))

/-- `date_guard_pipeline`: LLM extraction (given as a parameter) followed by
the deterministic range check; a missing or empty extracted date short-cuts
to FAIL. -/
def date_guard_pipeline (llmDate : Option (List Char)) (llmReason : String)
    (date_start date_end : List Char) : DateCheck :=
  let part1 := String.mk (pyStrip ("llm: " ++ llmReason).toList)
  match llmDate with
  | some (c :: pd) =>
    let r := check_date_range (c :: pd) date_start date_end
    ⟨check_status r, r.parsed_date, joinReasonParts [part1, "range: " ++ r.reason]⟩
  | _ =>
    let rs := joinReasonParts [part1]
    ⟨"FAIL", none, if rs = "" then "no date extracted" else rs⟩

/-- The final supervisor record; `actions_summary = none` models the absence
of the key from the emitted JSON object. -/
structure SupervisorResult where
  date_check : DateCheck
  actions_summary : Option String
  assigned_control_id : Option String
  rationale : String
deriving DecidableEq, Repr

/-- Collapse whitespace runs to single spaces (`re.sub` of the whitespace
pattern). -/
def collapseWSF : Nat → List Char → List Char
  | 0, _ => []
  | _ + 1, [] => []
  | fuel + 1, c :: cs =>
    if isPySpace c then ' ' :: collapseWSF fuel (cs.dropWhile isPySpace)
    else c :: collapseWSF fuel cs

/-- Whitespace-collapsed text. -/
def collapseWS (s : List Char) : List Char :=
  collapseWSF s.length s

/-- Python `body.rfind『. 』(0, bound)` — the highest start of a ". "
occurrence lying fully inside the first `bound` characters. -/
def rfindDotSpace (s : List Char) (bound : Nat) : Option Nat :=
  (List.range (min bound s.length)).foldl
    (fun acc i => if (s.drop i).take 2 = ['.', ' '] ∧ i + 2 ≤ bound then some i else acc)
    none

/-- `_make_actions_snippet` inside `run_supervisor` (the Action Describer
bypass): collapse whitespace and cut at 600 characters, preferring the last
sentence boundary. -/
def make_actions_snippet (s : List Char) : List Char :=
  let body := pyStrip (collapseWS s)
  if body.length ≤ 600 then body
  else
    pyStrip (body.take (match rfindDotSpace body 600 with
      | some i => i
      | none => 600))

/-- `run_supervisor` (evidence_process_agents.py): date-guard pipeline first;
on non-PASS return immediately with a null control and rationale
"date check failed" (the assigner parameters are not consulted); on PASS,
compute the actions snippet and assemble the final record from the control
assigner's reply — the snippet is dropped and no `actions_summary` key is
placed in the PASS-branch result, exactly as in the source. -/
def run_supervisor (llmDate : Option (List Char)) (llmReason : String)
    (assign_control_id : Option String) (assign_rationale : String)
    (text date_start date_end : List Char) : SupervisorResult :=
  let date_check := date_guard_pipeline llmDate llmReason date_start date_end
  if date_check.status ≠ "PASS" then
    ⟨date_check, some "", none, "date check failed"⟩
  else
    let _snippet := make_actions_snippet text
    ⟨date_check, none, assign_control_id, assign_rationale⟩

/-! ### Claim-side definitions

Definitions in this block phrase properties the specification states, to be
compared against the embedded code above. -/

/-- A one-or-two digit capture group with its numeric value. -/
def twoDigitGroup (cs : List Char) (v : Nat) : Prop :=
  (∃ a, cs = [a] ∧ a.isDigit = true ∧ v = digitVal a) ∨
  (∃ a b, cs = [a, b] ∧ a.isDigit = true ∧ b.isDigit = true ∧ v = 10 * digitVal a + digitVal b)

/-- A four-digit capture group with its numeric value. -/
def fourDigitGroup (cs : List Char) (v : Nat) : Prop :=
  ∃ a b c d, cs = [a, b, c, d] ∧ a.isDigit = true ∧ b.isDigit = true ∧ c.isDigit = true ∧
    d.isDigit = true ∧ v = 1000 * digitVal a + 100 * digitVal b + 10 * digitVal c + digitVal d

/-- A substring of the month-first numeric shape `M[M] sep D[D] sep YYYY`
denoting month `mo`, day `da` and year `y`. -/
def mdyShape (mcs : List Char) (s1 : Char) (dcs : List Char) (s2 : Char)
    (ycs : List Char) (mo da y : Nat) : Prop :=
  twoDigitGroup mcs mo ∧ isSep s1 = true ∧ twoDigitGroup dcs da ∧ isSep s2 = true ∧
    fourDigitGroup ycs y

/-- The text before an occurrence ends at a word boundary. -/
def boundaryLeft (pre : List Char) : Prop :=
  ∀ c, pre.getLast? = some c → isWordChar c = false

/-- The text after an occurrence starts at a word boundary. -/
def boundaryRight (post : List Char) : Prop :=
  ∀ c, post.head? = some c → isWordChar c = false

/-- The chooser scoring formula exactly as the specification words it:
0.2 for the first contextual keyword hit plus 0.1 per additional hit beyond
the first, capped at 3 extra hits, plus the recency nudge. -/
def chooserScoreClaim (text : List Char) (c : DateRec) : ℚ :=
  (if (ctxHits text c).length ≠ 0 then
    (1 : ℚ) / 2 + (2 / 10 + (1 / 10) * ((min 3 ((ctxHits text c).length - 1) : Nat) : ℚ))
   else (1 : ℚ) / 2) + recencyNudge c

/-! ## Helper lemmas -/

theorem dedupFirstByAux_sublist (key : α → String) (l : List α) (seen : List String) :
    (dedupFirstByAux key l seen).Sublist l := by
  induction l generalizing seen with
  | nil => simp [dedupFirstByAux]
  | cons x rest ih =>
    by_cases h : key x ∈ seen
    · simp only [dedupFirstByAux, if_pos h]
      exact (ih seen).trans (List.sublist_cons_self x rest)
    · simp only [dedupFirstByAux, if_neg h]
      exact (ih (key x :: seen)).cons₂ x

theorem mem_dedupFirstByAux_key_not_seen (key : α → String) {l : List α}
    {seen : List String} {x : α} (hx : x ∈ dedupFirstByAux key l seen) :
    key x ∉ seen := by
  induction l generalizing seen with
  | nil => simp [dedupFirstByAux] at hx
  | cons a rest ih =>
    by_cases h : key a ∈ seen
    · rw [dedupFirstByAux, if_pos h] at hx
      exact ih hx
    · rw [dedupFirstByAux, if_neg h] at hx
      rcases List.mem_cons.mp hx with rfl | hx
      · exact h
      · intro hs
        exact ih hx (List.mem_cons_of_mem _ hs)

theorem dedupFirstByAux_keys_nodup (key : α → String) (l : List α) (seen : List String) :
    ((dedupFirstByAux key l seen).map key).Nodup := by
  induction l generalizing seen with
  | nil => simp [dedupFirstByAux]
  | cons a rest ih =>
    by_cases h : key a ∈ seen
    · rw [dedupFirstByAux, if_pos h]; exact ih seen
    · rw [dedupFirstByAux, if_neg h]
      refine List.Nodup.cons ?_ (ih (key a :: seen))
      intro hmem
      rcases List.mem_map.mp hmem with ⟨y, hy, hkey⟩
      exact mem_dedupFirstByAux_key_not_seen key hy (hkey ▸ List.mem_cons_self _ _)

theorem dedupFirstByAux_covers (key : α → String) {l : List α} {seen : List String}
    {x : α} (hx : x ∈ l) (hns : key x ∉ seen) :
    ∃ y ∈ dedupFirstByAux key l seen, key y = key x := by
  induction l generalizing seen with
  | nil => simp at hx
  | cons a rest ih =>
    by_cases h : key a ∈ seen
    · rw [dedupFirstByAux, if_pos h]
      rcases List.mem_cons.mp hx with rfl | hx
      · exact absurd h hns
      · exact ih hx hns
    · rw [dedupFirstByAux, if_neg h]
      rcases List.mem_cons.mp hx with rfl | hx
      · exact ⟨x, List.mem_cons_self _ _, rfl⟩
      · by_cases hk : key x = key a
        · exact ⟨a, List.mem_cons_self _ _, hk.symm⟩
        · have hns2 : key x ∉ key a :: seen := by simp [List.mem_cons, hk, hns]
          rcases ih hx hns2 with ⟨y, hy, hkey⟩
          exact ⟨y, List.mem_cons_of_mem _ hy, hkey⟩

theorem dedupFirstByAux_find_first (key : α → String) {l : List α} {seen : List String}
    {y : α} (hy : y ∈ dedupFirstByAux key l seen) :
    l.find? (fun x => key x == key y) = some y := by
  induction l generalizing seen with
  | nil => simp [dedupFirstByAux] at hy
  | cons a rest ih =>
    by_cases h : key a ∈ seen
    · rw [dedupFirstByAux, if_pos h] at hy
      have hne : key a ≠ key y := by
        intro he
        exact mem_dedupFirstByAux_key_not_seen key hy (he ▸ h)
      rw [List.find?_cons_of_neg _ (by simpa using hne)]
      exact ih hy
    · rw [dedupFirstByAux, if_neg h] at hy
      rcases List.mem_cons.mp hy with rfl | hy
      · rw [List.find?_cons_of_pos _ (by simp)]
      · have hne : key a ≠ key y := by
          intro he
          exact mem_dedupFirstByAux_key_not_seen key hy (he ▸ List.mem_cons_self _ _)
        rw [List.find?_cons_of_neg _ (by simpa using hne)]
        exact ih hy

theorem mem_dedupFirstBy_iff_id (l : List String) (s : String) :
    s ∈ dedupFirstBy id l ↔ s ∈ l := by
  constructor
  · intro h
    have h2 : s ∈ dedupFirstByAux id l [] := h
    exact (dedupFirstByAux_sublist id l []).subset h2
  · intro h
    have hns : (id s : String) ∉ ([] : List String) := by simp
    rcases dedupFirstByAux_covers id h hns with ⟨y, hy, hkey⟩
    have hys : y = s := hkey
    exact hys ▸ hy

theorem toDateSafeIso_eq_some {y m d : Nat} {s : String}
    (h : toDateSafeIso y m d = some s) :
    dateValid y m d = true ∧ s = iso_date ⟨y, m, d⟩ := by
  unfold toDateSafeIso to_date_safe at h
  by_cases hv : dateValid y m d = true
  · rw [if_pos hv] at h
    simp at h
    exact ⟨hv, h.symm⟩
  · rw [if_neg hv] at h
    simp at h

/-! ## Claims about `check_date_range` -/

/-- C1: with a parseable subject date `d` and parseable window boundaries,
`check_date_range` reports within/"in range" (status PASS) exactly when
`windowStart ≤ d ≤ windowEnd`, and not-within/"out of range" (status FAIL)
for every `d` outside the window — the comparison is inclusive on both
ends. -/
theorem c1_date_range_inclusive (ds ss es : List Char) (d ws we : PyDate)
    (hd : parse_any_date ds = some d) (hs : parse_boundary ss = some ws)
    (he : parse_boundary es = some we) :
    ((dateLE ws d && dateLE d we) = true →
      check_date_range ds ss es = ⟨true, some (iso_date d), "in range"⟩ ∧
      check_status (check_date_range ds ss es) = "PASS") ∧
    ((dateLE ws d && dateLE d we) = false →
      check_date_range ds ss es = ⟨false, some (iso_date d), "out of range"⟩ ∧
      check_status (check_date_range ds ss es) = "FAIL") := by
  have hcr : check_date_range ds ss es =
      if dateLE ws d && dateLE d we then ⟨true, some (iso_date d), "in range"⟩
      else ⟨false, some (iso_date d), "out of range"⟩ := by
    unfold check_date_range
    rw [hd, hs, he]
  constructor
  · intro h
    rw [hcr, if_pos h]
    exact ⟨rfl, rfl⟩
  · intro h
    rw [hcr, if_neg (by simp [h])]
    exact ⟨rfl, rfl⟩

/-- Witness for C1: the window 2024-01-01..2024-01-31 contains 2024-01-15
(PASS, "in range"), while 2024-02-01 — one day past the end — is rejected
(FAIL, "out of range"). -/
theorem c1_witness :
    check_date_range "2024-01-15".toList "2024-01-01".toList "2024-01-31".toList =
      ⟨true, some (iso_date ⟨2024, 1, 15⟩), "in range"⟩ ∧
    check_date_range "2024-02-01".toList "2024-01-01".toList "2024-01-31".toList =
      ⟨false, some (iso_date ⟨2024, 2, 1⟩), "out of range"⟩ :=
  ⟨((c1_date_range_inclusive _ _ _ ⟨2024, 1, 15⟩ ⟨2024, 1, 1⟩ ⟨2024, 1, 31⟩
      (by decide) (by decide) (by decide)).1 (by decide)).1,
   ((c1_date_range_inclusive _ _ _ ⟨2024, 2, 1⟩ ⟨2024, 1, 1⟩ ⟨2024, 1, 31⟩
      (by decide) (by decide) (by decide)).2 (by decide)).1⟩

/-- C8: `check_date_range` is total; an unparseable subject date yields
within = false (status FAIL) with a null parsed date and reason
"unrecognized date format", and a parseable subject date with an unparseable
boundary yields within = false with reason "invalid range". -/
theorem c8_date_range_error_handling (ss es : List Char) :
    (∀ ds, parse_any_date ds = none →
      check_date_range ds ss es = ⟨false, none, "unrecognized date format"⟩ ∧
      check_status (check_date_range ds ss es) = "FAIL") ∧
    (∀ ds d, parse_any_date ds = some d →
      parse_boundary ss = none ∨ parse_boundary es = none →
      check_date_range ds ss es = ⟨false, some (iso_date d), "invalid range"⟩ ∧
      check_status (check_date_range ds ss es) = "FAIL") := by
  constructor
  · intro ds hd
    have hcr : check_date_range ds ss es = ⟨false, none, "unrecognized date format"⟩ := by
      unfold check_date_range
      rw [hd]
    exact ⟨hcr, by rw [hcr]; rfl⟩
  · intro ds d hd hb
    have hcr : check_date_range ds ss es = ⟨false, some (iso_date d), "invalid range"⟩ := by
      unfold check_date_range
      rw [hd]
      rcases hb with hb | hb
      · rw [hb]
      · rw [hb]
        cases h2 : parse_boundary ss <;> rfl
    exact ⟨hcr, by rw [hcr]; rfl⟩

/-- Witness for C8: "not-a-date" is unparseable (FAIL, null parsed date,
"unrecognized date format"); a parseable date against the unparseable
boundary "nope" gives FAIL, "invalid range". -/
theorem c8_witness :
    check_date_range "not-a-date".toList "2024-01-01".toList "2024-01-31".toList =
      ⟨false, none, "unrecognized date format"⟩ ∧
    check_date_range "2024-01-15".toList "nope".toList "2024-01-31".toList =
      ⟨false, some (iso_date ⟨2024, 1, 15⟩), "invalid range"⟩ :=
  ⟨((c8_date_range_error_handling "2024-01-01".toList "2024-01-31".toList).1
      "not-a-date".toList (by decide)).1,
   ((c8_date_range_error_handling "nope".toList "2024-01-31".toList).2
      "2024-01-15".toList ⟨2024, 1, 15⟩ (by decide) (Or.inl (by decide))).1⟩

/-! ## Claims about the specification cache -/

/-- C9 counterexample: after a call where both sources fail (initial state:
no cache, no timestamp; both loaders return `none`), the returned list is
empty, but the cache timestamp HAS been updated to `now` — contradicting the
claim that the timestamp is left untouched. -/
theorem c9_counterexample :
    (get_control_specs_cached ⟨none, none⟩ 1000 none none).1 = [] ∧
    (get_control_specs_cached ⟨none, none⟩ 1000 none none).2.cacheAt = some 1000 ∧
    (⟨none, none⟩ : SpecsCache).cacheAt = none :=
  ⟨rfl, rfl, rfl⟩

/-- C9 (amended): on a cache miss where both sources fail, the call returns
an empty list without raising and stores `(some [], some now)` — the
timestamp IS updated — yet every subsequent call still re-attempts the
sources, because the empty cached list fails the truthiness test. -/
theorem c9_both_sources_fail (st : SpecsCache) (now : ℚ)
    (remote loc : Option (List SpecRow)) (hmiss : cacheFresh st now = false)
    (hr : remote = none ∨ remote = some []) (hl : loc = none ∨ loc = some []) :
    get_control_specs_cached st now remote loc = ([], ⟨some [], some now⟩) ∧
    ∀ (now2 : ℚ) (r2 l2 : Option (List SpecRow)),
      get_control_specs_cached ⟨some [], some now⟩ now2 r2 l2 =
        (pyOrSpecs r2 l2, ⟨some (pyOrSpecs r2 l2), some now2⟩) := by
  have hempty : pyOrSpecs remote loc = [] := by
    rcases hr with rfl | rfl <;> rcases hl with rfl | rfl <;> rfl
  constructor
  · rw [get_control_specs_cached, if_neg (by simp [hmiss]), hempty]
  · intro now2 r2 l2
    rw [get_control_specs_cached, if_neg (by simp [cacheFresh])]

/-- Witness for C9 (amended): concrete instance with an initially empty
state, `now = 5`, and both loaders failing. -/
theorem c9_witness :
    get_control_specs_cached ⟨none, none⟩ 5 none none = ([], ⟨some [], some 5⟩) ∧
    ∀ (now2 : ℚ) (r2 l2 : Option (List SpecRow)),
      get_control_specs_cached ⟨some [], some 5⟩ now2 r2 l2 =
        (pyOrSpecs r2 l2, ⟨some (pyOrSpecs r2 l2), some now2⟩) :=
  c9_both_sources_fail ⟨none, none⟩ 5 none none rfl (Or.inl rfl) (Or.inl rfl)

/-- C10: the freshness test requires the cached list to be non-empty as well
as young: a state caching the empty list (or nothing) always reloads from
the sources, whatever the clock says, while a non-empty cached list with a
non-zero timestamp younger than 15 minutes is returned unchanged and the
state is untouched. -/
theorem c10_cache_freshness :
    (∀ (st : SpecsCache) (now : ℚ) (remote loc : Option (List SpecRow)),
      st.cache = none ∨ st.cache = some [] →
      get_control_specs_cached st now remote loc =
        (pyOrSpecs remote loc, ⟨some (pyOrSpecs remote loc), some now⟩)) ∧
    (∀ (st : SpecsCache) (l : List SpecRow) (t now : ℚ)
        (remote loc : Option (List SpecRow)),
      st.cache = some l → l ≠ [] → st.cacheAt = some t → t ≠ 0 → now - t < 900 →
      get_control_specs_cached st now remote loc = (l, st)) := by
  constructor
  · intro st now remote loc hc
    have hfresh : cacheFresh st now = false := by
      rcases st with ⟨c, a⟩
      rcases hc with rfl | rfl
      · rfl
      · rcases a with _ | t <;> simp [cacheFresh]
    rw [get_control_specs_cached, if_neg (by simp [hfresh])]
  · intro st l t now remote loc hc hl ht htz hyoung
    have hfresh : cacheFresh st now = true := by
      rcases st with ⟨c, a⟩
      simp only at hc ht
      subst hc ht
      simp [cacheFresh, hl, htz, hyoung]
    rw [get_control_specs_cached, if_pos (by simp [hfresh]), hc]
    rfl

/-- Witness for C10: a cached empty list is reloaded even one second after
caching, and a non-empty list cached at `t = 5` is served unchanged at
`now = 10`. -/
theorem c10_witness :
    get_control_specs_cached ⟨some [], some 5⟩ 6 (some [⟨"u1", "CTRL-1", "s", ""⟩]) none =
      (pyOrSpecs (some [⟨"u1", "CTRL-1", "s", ""⟩]) none,
        ⟨some (pyOrSpecs (some [⟨"u1", "CTRL-1", "s", ""⟩]) none), some 6⟩) ∧
    get_control_specs_cached ⟨some [⟨"u1", "CTRL-1", "s", ""⟩], some 5⟩ 10 none none =
      ([⟨"u1", "CTRL-1", "s", ""⟩], ⟨some [⟨"u1", "CTRL-1", "s", ""⟩], some 5⟩) :=
  ⟨c10_cache_freshness.1 ⟨some [], some 5⟩ 6 (some [⟨"u1", "CTRL-1", "s", ""⟩]) none
      (Or.inr rfl),
   c10_cache_freshness.2 ⟨some [⟨"u1", "CTRL-1", "s", ""⟩], some 5⟩
      [⟨"u1", "CTRL-1", "s", ""⟩] 5 10 none none rfl (by simp) rfl
      (by norm_num) (by norm_num)⟩

/-! ## Claim about the supervisor composition -/

/-- C2: evaluated at a passing input, `run_supervisor` emits a result whose
date check is PASS and whose `actions_summary` key is ABSENT (`none`) — the
snippet is computed but never placed in the PASS-branch result, contradicting
the claim (and the function's own docstring); on any non-PASS date check the
result short-circuits to
`{date_check, actions_summary: "", assigned_control_id: null,
rationale: "date check failed"}` independently of the assigner parameters
(the control-match step is never consulted). -/
theorem c2_run_supervisor_at_failing_input :
    (run_supervisor (some "2024-01-15".toList) "json_result" (some "CTRL-LOG-001")
        "keyword overlap" "Logging evidence".toList "2024-01-01".toList
        "2024-01-31".toList).date_check.status = "PASS" ∧
    (run_supervisor (some "2024-01-15".toList) "json_result" (some "CTRL-LOG-001")
        "keyword overlap" "Logging evidence".toList "2024-01-01".toList
        "2024-01-31".toList).actions_summary = none ∧
    (run_supervisor (some "2024-01-15".toList) "json_result" (some "CTRL-LOG-001")
        "keyword overlap" "Logging evidence".toList "2024-01-01".toList
        "2024-01-31".toList).assigned_control_id = some "CTRL-LOG-001" ∧
    ∀ (ac : Option String) (ar : String),
      run_supervisor none "llm_error: boom" ac ar "text".toList "2024-01-01".toList
          "2024-01-31".toList =
        ⟨⟨"FAIL", none, "llm: llm_error: boom"⟩, some "", none, "date check failed"⟩ := by
  refine ⟨by decide, by decide, by decide, ?_⟩
  intro ac ar
  rfl

/-! ## Claim about the evidence-date chooser -/

theorem chooseScore_eq (text : List Char) (c : DateRec) :
    chooseScore text c =
      1 / 2 + (if 1 ≤ (ctxHits text c).length then
        2 / 10 + (1 / 10) * ((min 3 (ctxHits text c).length : Nat) : ℚ) else 0) +
      recencyNudge c := by
  unfold chooseScore
  by_cases h : (ctxHits text c).length = 0
  · rw [if_neg (by simp [h]), if_neg (by omega)]
    ring
  · rw [if_pos h, if_pos (by omega)]

/-- C3 counterexample: on the text "signed 2024-03-05" the sole candidate has
exactly one contextual keyword hit ("signed"), yet the computed score is 0.8
plus the recency nudge, not the 0.7 plus nudge the claim asserts — and in
general the score differs from the claim's formula, because the code's
`0.1 * min(3, hits)` term counts the first hit too. -/
theorem c3_counterexample :
    (ctxHits "signed 2024-03-05".toList ⟨"2024-03-05", (7, 17), "iso"⟩).length = 1 ∧
    chooseScore "signed 2024-03-05".toList ⟨"2024-03-05", (7, 17), "iso"⟩ ≠
      7 / 10 + recencyNudge ⟨"2024-03-05", (7, 17), "iso"⟩ ∧
    chooseScore "signed 2024-03-05".toList ⟨"2024-03-05", (7, 17), "iso"⟩ ≠
      chooserScoreClaim "signed 2024-03-05".toList ⟨"2024-03-05", (7, 17), "iso"⟩ := by
  have h1 : (ctxHits "signed 2024-03-05".toList ⟨"2024-03-05", (7, 17), "iso"⟩).length = 1 := by
    decide
  have hmin1 : ((min 3 (1 : Nat) : Nat) : ℚ) = 1 := by norm_num
  have hmin0 : ((min 3 (1 - 1 : Nat) : Nat) : ℚ) = 0 := by norm_num
  refine ⟨h1, ?_, ?_⟩
  · intro h
    rw [chooseScore_eq, h1, if_pos (by omega), hmin1] at h
    have := add_right_cancel h
    norm_num at this
  · intro h
    rw [chooseScore_eq, h1, if_pos (by omega), hmin1] at h
    unfold chooserScoreClaim at h
    rw [h1, if_pos (by omega), hmin0] at h
    have := add_right_cancel h
    norm_num at this

/-- C3 (amended): every candidate's score is base 0.5, plus — when its
context window contains at least one of the eight keywords — 0.2 plus 0.1 per
keyword hit COUNTING THE FIRST (capped at 3 hits counted), plus the recency
nudge `(year - 2000) * 0.001`; in particular a candidate with exactly one
keyword hit scores 0.8 plus its recency nudge. -/
theorem c3_chooser_scoring (text : List Char) (c : DateRec) :
    chooseScore text c =
      1 / 2 + (if 1 ≤ (ctxHits text c).length then
        2 / 10 + (1 / 10) * ((min 3 (ctxHits text c).length : Nat) : ℚ) else 0) +
      recencyNudge c ∧
    ((ctxHits text c).length = 1 →
      chooseScore text c = 8 / 10 + recencyNudge c) := by
  refine ⟨chooseScore_eq text c, ?_⟩
  intro h1
  rw [chooseScore_eq, h1, if_pos (by omega)]
  norm_num

/-! ## Claim about the fallback control rules -/

theorem c7_eval :
    stage_control_candidates [] [] "Password policy enforced with MFA login".toList =
      [⟨"CTRL-PASS-001", none, "Password Policy",
        round2 (min ((2 : ℚ) / 5 + (1 / 10) * ((1 : Nat) : ℚ)) (19 / 20)),
        "Matched: password policy"⟩,
       ⟨"CTRL-AUTH-001", none, "Multi-Factor Authentication",
        round2 (min ((2 : ℚ) / 5 + (1 / 10) * ((1 : Nat) : ℚ)) (19 / 20)),
        "Matched: mfa"⟩] := by
  rfl

theorem rhe_intCast (n : ℤ) : rhe ((n : ℤ) : ℚ) = n := by
  unfold rhe
  rw [Int.floor_intCast]
  rw [if_pos (by norm_num)]

theorem round2_half : round2 ((1 : ℚ) / 2) = 1 / 2 := by
  unfold round2
  have h : (100 : ℚ) * (1 / 2) = ((50 : ℤ) : ℚ) := by norm_num
  rw [h, rhe_intCast]
  norm_num

theorem c7_conf_val :
    round2 (min ((2 : ℚ) / 5 + (1 / 10) * ((1 : Nat) : ℚ)) (19 / 20)) = 1 / 2 := by
  have h1 : ((2 : ℚ) / 5 + (1 / 10) * ((1 : Nat) : ℚ)) = 1 / 2 := by push_cast; norm_num
  rw [h1, min_eq_left (by norm_num : (1 : ℚ) / 2 ≤ 19 / 20), round2_half]

/-- C7 counterexample: on the exact fixture
"Password policy enforced with MFA login" with an empty catalog, the TOP
returned candidate is NOT the MFA rule candidate — the fallback branch emits
the rules in their fixed order and never sorts, so the password-policy rule
comes first. -/
theorem c7_counterexample :
    ((stage_control_candidates [] []
        "Password policy enforced with MFA login".toList).head?).map Cand.id ≠
      some "CTRL-AUTH-001" := by
  rw [c7_eval]
  simp

/-- C7 (amended): with an empty catalog, the fixture text yields exactly the
two rule candidates in rule order — CTRL-PASS-001 first, then CTRL-AUTH-001
— each with confidence 0.5 (one keyword hit each); in particular both
CTRL-PASS-001 and CTRL-AUTH-001 are among the returned candidates. -/
theorem c7_fallback_candidates :
    (stage_control_candidates [] []
        "Password policy enforced with MFA login".toList).map
      (fun c => (c.id, c.confidence)) =
      [("CTRL-PASS-001", (1 : ℚ) / 2), ("CTRL-AUTH-001", (1 : ℚ) / 2)] ∧
    "CTRL-PASS-001" ∈ (stage_control_candidates [] []
        "Password policy enforced with MFA login".toList).map Cand.id ∧
    "CTRL-AUTH-001" ∈ (stage_control_candidates [] []
        "Password policy enforced with MFA login".toList).map Cand.id := by
  rw [c7_eval]
  refine ⟨?_, by simp, by simp⟩
  simp only [List.map_cons, List.map_nil]
  rw [c7_conf_val]

/-! ## Claim about the date extractors -/

theorem extract_dates_eq (t : List Char) :
    extract_dates t = dedupFirstBy id (extractFound t) := by
  unfold extract_dates
  by_cases h : t = []
  · subst h
    rfl
  · rw [if_neg h]

theorem extractFound_valid (t : List Char) :
    ∀ s ∈ extractFound t,
      ∃ y m d, dateValid y m d = true ∧ s = iso_date ⟨y, m, d⟩ := by
  intro s hs
  unfold extractFound at hs
  rcases List.mem_append.mp hs with hs | hs
  · rcases List.mem_append.mp hs with hs | hs
    · rcases List.mem_filterMap.mp hs with ⟨tr, _, htr⟩
      rcases toDateSafeIso_eq_some htr with ⟨hv, rfl⟩
      exact ⟨tr.1, tr.2.1, tr.2.2, hv, rfl⟩
    · rcases List.mem_filterMap.mp hs with ⟨tr, _, htr⟩
      rcases toDateSafeIso_eq_some htr with ⟨hv, rfl⟩
      exact ⟨tr.2.2, tr.1, tr.2.1, hv, rfl⟩
  · rcases List.mem_filterMap.mp hs with ⟨tr, _, htr⟩
    rcases hmo : monthsEPA (lowerList tr.1) with _ | mo
    · rw [hmo] at htr
      simp at htr
    · rw [hmo] at htr
      rcases toDateSafeIso_eq_some htr with ⟨hv, rfl⟩
      exact ⟨tr.2.2, mo, tr.2.1, hv, rfl⟩

theorem findOut_valid (t : List Char) :
    ∀ r ∈ findOut t,
      ∃ y m d, dateValid y m d = true ∧ r.iso = iso_date ⟨y, m, d⟩ := by
  intro r hr
  unfold findOut at hr
  rcases List.mem_append.mp hr with hr | hr
  · rcases List.mem_append.mp hr with hr | hr
    · rcases List.mem_filterMap.mp hr with ⟨m, _, hm⟩
      rcases Option.map_eq_some'.mp hm with ⟨i, hi, rfl⟩
      rcases toDateSafeIso_eq_some hi with ⟨hv, rfl⟩
      exact ⟨m.1.1, m.1.2.1, m.1.2.2, hv, rfl⟩
    · rcases List.mem_filterMap.mp hr with ⟨m, _, hm⟩
      rcases Option.map_eq_some'.mp hm with ⟨i, hi, rfl⟩
      rcases toDateSafeIso_eq_some hi with ⟨hv, rfl⟩
      exact ⟨m.1.2.2, m.1.1, m.1.2.1, hv, rfl⟩
  · rcases List.mem_filterMap.mp hr with ⟨m, _, hm⟩
    rcases Option.map_eq_some'.mp hm with ⟨i, hi, rfl⟩
    rcases toDateSafeIso_eq_some hi with ⟨hv, rfl⟩
    exact ⟨m.1.2.2, m.1.2.1, m.1.1, hv, rfl⟩

/-- C5: both extractors return no duplicate ISO dates; the result is a
sublist of the raw per-family match list (so first-encounter order is
preserved); exactly the ISO values of the raw list survive; every kept
record is the FIRST raw record with its ISO value (so the first occurrence's
span and label are kept); no invalid calendar combination ever appears (every
output is the ISO form of a constructor-validated date); and empty text
yields an empty list rather than an error. -/
theorem c5_extractor_dedup_order_valid (t : List Char) :
    (extract_dates t).Nodup ∧
    (extract_dates t).Sublist (extractFound t) ∧
    (∀ s, s ∈ extract_dates t ↔ s ∈ extractFound t) ∧
    (∀ s ∈ extract_dates t, ∃ y m d, dateValid y m d = true ∧ s = iso_date ⟨y, m, d⟩) ∧
    ((find_dates t).map DateRec.iso).Nodup ∧
    (find_dates t).Sublist (findOut t) ∧
    (∀ i, (∃ r ∈ findOut t, r.iso = i) ↔ ∃ r ∈ find_dates t, r.iso = i) ∧
    (∀ r ∈ find_dates t, (findOut t).find? (fun x => x.iso == r.iso) = some r) ∧
    (∀ r ∈ find_dates t, ∃ y m d, dateValid y m d = true ∧ r.iso = iso_date ⟨y, m, d⟩) ∧
    extract_dates [] = [] ∧ find_dates [] = [] := by
  rw [extract_dates_eq]
  refine ⟨?_, dedupFirstByAux_sublist id _ [], ?_, ?_, dedupFirstByAux_keys_nodup _ _ [],
    dedupFirstByAux_sublist DateRec.iso _ [], ?_, ?_, ?_, rfl, rfl⟩
  · have h := dedupFirstByAux_keys_nodup id (extractFound t) []
    rwa [List.map_id] at h
  · intro s
    exact mem_dedupFirstBy_iff_id (extractFound t) s
  · intro s hs
    exact extractFound_valid t s
      ((mem_dedupFirstBy_iff_id (extractFound t) s).mp hs)
  · intro i
    constructor
    · rintro ⟨r, hr, rfl⟩
      have hns : DateRec.iso r ∉ ([] : List String) := by simp
      rcases dedupFirstByAux_covers DateRec.iso hr hns with ⟨y, hy, hkey⟩
      exact ⟨y, hy, hkey⟩
    · rintro ⟨r, hr, rfl⟩
      exact ⟨r, (dedupFirstByAux_sublist DateRec.iso _ []).subset hr, rfl⟩
  · intro r hr
    exact dedupFirstByAux_find_first DateRec.iso hr
  · intro r hr
    exact findOut_valid t r ((dedupFirstByAux_sublist DateRec.iso _ []).subset hr)

/-! ## Claim about catalog-driven control matching -/

theorem le_foldl_max (xs : List ℚ) : ∀ acc : ℚ, acc ≤ xs.foldl max acc := by
  induction xs with
  | nil => intro acc; simp
  | cons y ys ih =>
    intro acc
    exact le_trans (le_max_left acc y) (ih (max acc y))

theorem mem_le_foldl_max (xs : List ℚ) : ∀ acc : ℚ, ∀ q ∈ xs, q ≤ xs.foldl max acc := by
  induction xs with
  | nil => intro acc q hq; simp at hq
  | cons y ys ih =>
    intro acc q hq
    rcases List.mem_cons.mp hq with rfl | hq
    · exact le_trans (le_max_right acc q) (le_foldl_max ys (max acc q))
    · exact ih (max acc y) q hq

theorem le_listMaxQ {l : List ℚ} {q : ℚ} (h : q ∈ l) : q ≤ listMaxQ l := by
  rcases l with _ | ⟨x, xs⟩
  · simp at h
  · rcases List.mem_cons.mp h with rfl | h
    · exact le_foldl_max xs q
    · exact mem_le_foldl_max xs x q h

theorem rhe_bounds {q : ℚ} (h1 : 50 < q) (h2 : q ≤ 99) :
    50 ≤ rhe q ∧ rhe q ≤ 99 := by
  have hk1 : (50 : ℤ) ≤ ⌊q⌋ := Int.le_floor.mpr (by exact_mod_cast h1.le)
  have hk2 : ⌊q⌋ ≤ 99 := by
    calc ⌊q⌋ ≤ ⌊(99 : ℚ)⌋ := Int.floor_mono h2
    _ = 99 := by norm_num
  have hfl : (⌊q⌋ : ℚ) ≤ q := Int.floor_le q
  unfold rhe
  split_ifs with hf1 hf2 hpar
  · exact ⟨hk1, hk2⟩
  all_goals
    have hhalf : (1 : ℚ) / 2 ≤ q - ⌊q⌋ := le_of_not_lt hf1
  all_goals
    have hlt : (⌊q⌋ : ℚ) < 99 := by linarith
  all_goals
    have hk98 : ⌊q⌋ ≤ 98 := by
      have h99 : ⌊q⌋ < 99 := by exact_mod_cast hlt
      omega
  · exact ⟨by omega, by omega⟩
  · exact ⟨hk1, hk2⟩
  · exact ⟨by omega, by omega⟩

theorem round2_bounds {q : ℚ} (h1 : 1 / 2 < q) (h2 : q ≤ 99 / 100) :
    1 / 2 ≤ round2 q ∧ round2 q ≤ 99 / 100 := by
  have hb := rhe_bounds (q := 100 * q) (by linarith) (by linarith)
  have hcast1 : (50 : ℚ) ≤ ((rhe (100 * q) : ℤ) : ℚ) := by exact_mod_cast hb.1
  have hcast2 : ((rhe (100 * q) : ℤ) : ℚ) ≤ 99 := by exact_mod_cast hb.2
  unfold round2
  constructor <;> [linarith; linarith]

theorem rowCand_some_fields {t : List Char} {row : SpecRow} {x : Cand}
    (h : rowCand t row = some x) :
    0 < x.confidence ∧ x.confidence = rowScoreVal t row ∧
    x.id = stripStr row.control_id := by
  unfold rowCand at h
  by_cases h1 : stripStr row.control_id = "" ∨ stripStr (specTextOf row) = ""
  · rw [if_pos h1] at h
    exact absurd h (by simp)
  · rw [if_neg h1] at h
    by_cases h2 : 0 < rowScoreVal t row
    · rw [if_pos h2] at h
      have hx := Option.some.inj h
      subst hx
      exact ⟨h2, rfl, rfl⟩
    · rw [if_neg h2] at h
      exact absurd h (by simp)

theorem overlapStep_fst_mono (f : String → Nat) (acc : ℚ × List String) (tok : String) :
    acc.1 ≤ (overlapStep f acc tok).1 := by
  unfold overlapStep
  by_cases h : f tok ≠ 0
  · rw [if_pos h]
    show acc.1 ≤ acc.1 + (1 + (1 / 10) * ((min 5 (f tok - 1) : Nat) : ℚ))
    have hnn : (0 : ℚ) ≤ ((min 5 (f tok - 1) : Nat) : ℚ) := by positivity
    linarith
  · rw [if_neg h]

theorem foldl_overlap_fst_mono (f : String → Nat) (l : List String) :
    ∀ acc : ℚ × List String, acc.1 ≤ (l.foldl (overlapStep f) acc).1 := by
  induction l with
  | nil => intro acc; simp
  | cons tok rest ih =>
    intro acc
    exact le_trans (overlapStep_fst_mono f acc tok) (ih (overlapStep f acc tok))

theorem rowScore_pos_of_hit {t : List Char} {row : SpecRow}
    (htok : ∃ tok ∈ specTokens row, (evTokens t).count tok ≠ 0) :
    0 < rowScoreVal t row := by
  rcases htok with ⟨tok, htok, hcnt⟩
  rcases List.append_of_mem htok with ⟨l1, l2, hsplit⟩
  unfold rowScoreVal rowOverlap
  rw [hsplit, List.foldl_append, List.foldl_cons]
  have h0 : (0 : ℚ) ≤ (l1.foldl (overlapStep (fun s => (evTokens t).count s)) ((0 : ℚ), ([] : List String))).1 :=
    foldl_overlap_fst_mono _ l1 (0, [])
  have hstep :
      (l1.foldl (overlapStep (fun s => (evTokens t).count s)) (0, [])).1 + 1 ≤
      (overlapStep (fun s => (evTokens t).count s)
        (l1.foldl (overlapStep (fun s => (evTokens t).count s)) (0, [])) tok).1 := by
    unfold overlapStep
    rw [if_pos hcnt]
    show _ + 1 ≤ _ + (1 + (1 / 10) * ((min 5 ((evTokens t).count tok - 1) : Nat) : ℚ))
    have hnn : (0 : ℚ) ≤ (1 / 10) * ((min 5 ((evTokens t).count tok - 1) : Nat) : ℚ) := by
      positivity
    linarith
  have hrest := foldl_overlap_fst_mono (fun s => (evTokens t).count s) l2
    (overlapStep (fun s => (evTokens t).count s)
      (l1.foldl (overlapStep (fun s => (evTokens t).count s)) (0, [])) tok)
  linarith

theorem rowCand_isSome_of {t : List Char} {row : SpecRow}
    (hcid : stripStr row.control_id ≠ "") (hspec : stripStr (specTextOf row) ≠ "")
    (htok : ∃ tok ∈ specTokens row, (evTokens t).count tok ≠ 0) :
    (rowCand t row).isSome = true := by
  unfold rowCand
  rw [if_neg (by simp [hcid, hspec]), if_pos (rowScore_pos_of_hit htok)]
  rfl

theorem sorted_desc_mergeSort (l : List Cand) :
    (l.mergeSort (fun a b => decide (b.confidence ≤ a.confidence))).Pairwise
      (fun a b : Cand => b.confidence ≤ a.confidence) := by
  have h : (l.mergeSort (fun a b => decide (b.confidence ≤ a.confidence))).Pairwise
      (fun a b : Cand => decide (b.confidence ≤ a.confidence) = true) :=
    List.sorted_mergeSort
      (by
        intro a b c hab hbc
        simp only [decide_eq_true_eq] at hab hbc ⊢
        linarith)
      (by
        intro a b
        simpa using le_total b.confidence a.confidence)
      l
  exact h.imp (fun hab => of_decide_eq_true hab)

/-- C6: with a non-empty catalog in which some usable row has a positive
overlap score, the stage returns at most 7 candidates, sorted descending by
confidence; every returned candidate descends from a scored row, its
confidence being `round2 (0.5 + 0.49 * (score / maxScore))`; consequently
every catalog-backed confidence lies in [0.5, 0.99] and strictly outranks
the generic fallback candidate's 0.25. -/
theorem c6_catalog_normalization (specs : List SpecRow) (asum text : List Char)
    (hspecs : specs ≠ [])
    (hpos : ∃ row ∈ specs, stripStr row.control_id ≠ "" ∧
      stripStr (specTextOf row) ≠ "" ∧
      ∃ tok ∈ specTokens row, (evTokens (stageText asum text)).count tok ≠ 0) :
    (stage_control_candidates specs asum text).length ≤ 7 ∧
    (stage_control_candidates specs asum text).Pairwise
      (fun a b : Cand => b.confidence ≤ a.confidence) ∧
    ∀ c ∈ stage_control_candidates specs asum text,
      ∃ x ∈ specs.filterMap (rowCand (stageText asum text)),
        c.id = x.id ∧
        c.confidence = round2 (1 / 2 + (49 / 100) *
          (x.confidence / catalogMax specs (stageText asum text))) ∧
        1 / 2 ≤ c.confidence ∧ c.confidence ≤ 99 / 100 ∧ 1 / 4 < c.confidence := by
  rcases hpos with ⟨row, hrow, hcid, hspec, htok⟩
  have hsome := rowCand_isSome_of hcid hspec htok
  rcases Option.isSome_iff_exists.mp hsome with ⟨x0, hx0⟩
  have hx0mem : x0 ∈ specs.filterMap (rowCand (stageText asum text)) :=
    List.mem_filterMap.mpr ⟨row, hrow, hx0⟩
  have hscne : specs.filterMap (rowCand (stageText asum text)) ≠ [] := by
    intro h
    rw [h] at hx0mem
    simp at hx0mem
  have hposall : ∀ x ∈ specs.filterMap (rowCand (stageText asum text)), 0 < x.confidence := by
    intro x hx
    rcases List.mem_filterMap.mp hx with ⟨r, _, hr⟩
    exact (rowCand_some_fields hr).1
  have hmpos : 0 < catalogMax specs (stageText asum text) :=
    lt_of_lt_of_le (hposall x0 hx0mem)
      (le_listMaxQ (List.mem_map_of_mem Cand.confidence hx0mem))
  have hm2 : (if catalogMax specs (stageText asum text) = 0 then 1
      else catalogMax specs (stageText asum text)) = catalogMax specs (stageText asum text) :=
    if_neg (ne_of_gt hmpos)
  have hcc : catalogCands specs (stageText asum text) =
      (((specs.filterMap (rowCand (stageText asum text))).map
          (normCand (catalogMax specs (stageText asum text)))).mergeSort
        (fun a b => decide (b.confidence ≤ a.confidence))).take 7 := by
    unfold catalogCands
    rw [if_pos hscne, hm2]
  have hlen : (catalogCands specs (stageText asum text)).length =
      min 7 (specs.filterMap (rowCand (stageText asum text))).length := by
    rw [hcc, List.length_take, (List.mergeSort_perm _ _).length_eq, List.length_map]
  have hccne : catalogCands specs (stageText asum text) ≠ [] := by
    intro h
    rw [h] at hlen
    simp only [List.length_nil] at hlen
    have hpos0 : 0 < (specs.filterMap (rowCand (stageText asum text))).length :=
      List.length_pos.mpr hscne
    omega
  have hstage : stage_control_candidates specs asum text =
      catalogCands specs (stageText asum text) := by
    unfold stage_control_candidates
    rw [if_pos hspecs, if_neg hccne]
  rw [hstage, hcc]
  refine ⟨?_, ?_, ?_⟩
  · rw [List.length_take]
    exact min_le_left _ _
  · exact (sorted_desc_mergeSort _).sublist (List.take_sublist _ _)
  · intro c hc
    have hc2 : c ∈ ((specs.filterMap (rowCand (stageText asum text))).map
        (normCand (catalogMax specs (stageText asum text)))).mergeSort
        (fun a b => decide (b.confidence ≤ a.confidence)) :=
      (List.take_sublist _ _).subset hc
    have hc3 : c ∈ (specs.filterMap (rowCand (stageText asum text))).map
        (normCand (catalogMax specs (stageText asum text))) :=
      (List.mergeSort_perm _ _).subset hc2
    rcases List.mem_map.mp hc3 with ⟨x, hxmem, rfl⟩
    have hxpos : 0 < x.confidence := hposall x hxmem
    have hxle : x.confidence ≤ catalogMax specs (stageText asum text) :=
      le_listMaxQ (List.mem_map_of_mem Cand.confidence hxmem)
    have hratio1 : 0 < x.confidence / catalogMax specs (stageText asum text) :=
      div_pos hxpos hmpos
    have hratio2 : x.confidence / catalogMax specs (stageText asum text) ≤ 1 :=
      (div_le_one hmpos).mpr hxle
    have hv1 : (1 : ℚ) / 2 < 1 / 2 + (49 / 100) *
        (x.confidence / catalogMax specs (stageText asum text)) := by
      have hmul := mul_pos (by norm_num : (0 : ℚ) < 49 / 100) hratio1
      linarith
    have hv2 : (1 : ℚ) / 2 + (49 / 100) *
        (x.confidence / catalogMax specs (stageText asum text)) ≤ 99 / 100 := by
      have hmul := mul_le_of_le_one_right (by norm_num : (0 : ℚ) ≤ 49 / 100) hratio2
      linarith
    have hb := round2_bounds hv1 hv2
    have hnc : (normCand (catalogMax specs (stageText asum text)) x).confidence =
        round2 (1 / 2 + (49 / 100) *
          (x.confidence / catalogMax specs (stageText asum text))) := rfl
    refine ⟨x, hxmem, rfl, hnc, ?_, ?_, ?_⟩ <;> rw [hnc]
    · exact hb.1
    · exact hb.2
    · linarith [hb.1]

/-- Witness for C6: a one-row catalog whose spec shares the tokens
"password" and "rotation" with the evidence text. -/
theorem c6_witness :
    ([⟨"u1", "CTRL-1", "password rotation required", ""⟩] : List SpecRow) ≠ [] ∧
    (stage_control_candidates [⟨"u1", "CTRL-1", "password rotation required", ""⟩]
        [] "password rotation evidence".toList).length ≤ 7 ∧
    ∀ c ∈ stage_control_candidates [⟨"u1", "CTRL-1", "password rotation required", ""⟩]
        [] "password rotation evidence".toList,
      1 / 2 ≤ c.confidence ∧ c.confidence ≤ 99 / 100 := by
  have h := c6_catalog_normalization
    [⟨"u1", "CTRL-1", "password rotation required", ""⟩] []
    "password rotation evidence".toList (by decide)
    ⟨⟨"u1", "CTRL-1", "password rotation required", ""⟩, by decide,
      by decide, by decide, "password", by decide, by decide⟩
  refine ⟨by decide, h.1, ?_⟩
  intro c hc
  rcases h.2.2 c hc with ⟨x, _, _, _, hb1, hb2, _⟩
  exact ⟨hb1, hb2⟩

/-- Witness for C3 (amended): the one-hit candidate of the counterexample
text indeed scores 0.8 plus its recency nudge. -/
theorem c3_witness :
    chooseScore "signed 2024-03-05".toList ⟨"2024-03-05", (7, 17), "iso"⟩ =
      8 / 10 + recencyNudge ⟨"2024-03-05", (7, 17), "iso"⟩ :=
  (c3_chooser_scoring "signed 2024-03-05".toList ⟨"2024-03-05", (7, 17), "iso"⟩).2
    (by decide)

/-- Witness for C5: on a text holding the same date twice in two formats, the
extractor output contains the ISO date once, and the validity clause applies
to it. -/
theorem c5_witness :
    "2024-03-05" ∈ extract_dates "2024-03-05 and 3/5/2024".toList ∧
    (∃ y m d, dateValid y m d = true ∧ ("2024-03-05" : String) = iso_date ⟨y, m, d⟩) :=
  ⟨by decide,
   (c5_extractor_dedup_order_valid "2024-03-05 and 3/5/2024".toList).2.2.2.1
     "2024-03-05" (by decide)⟩

/-! ## Claim about pattern-B extraction (month-first numeric dates)

The lemmas below show that `extract_dates` finds every word-boundary-
delimited occurrence of the month-first numeric shape: the pattern-B scan
matches exactly the occurrence when it reaches it, and no earlier match can
consume past the occurrence's start (a match ends in a digit and its only
non-digit characters are its two separators, neither of which can align with
the occurrence's interior). -/

theorem sep_not_digit {c : Char} (h : isSep c = true) : c.isDigit = false := by
  unfold isSep at h
  simp only [Bool.or_eq_true, decide_eq_true_eq] at h
  rcases h with (rfl | rfl) | rfl <;> decide

theorem digit_isWordChar {c : Char} (h : c.isDigit = true) : isWordChar c = true := by
  unfold isWordChar Char.isAlphanum
  simp [h]

theorem num2sep_sound {cs : List Char} {v : Nat} {r : List Char}
    (h : num2sep cs = some (v, r)) :
    ∃ g s, cs = g ++ s :: r ∧ twoDigitGroup g v ∧ isSep s = true := by
  rcases cs with _ | ⟨a, _ | ⟨b, _ | ⟨c, rest⟩⟩⟩
  · simp [num2sep] at h
  · simp [num2sep] at h
  · rw [num2sep] at h
    split_ifs at h with h1
    · simp only [Option.some.injEq, Prod.mk.injEq] at h
      obtain ⟨hv, hr⟩ := h
      subst hv
      subst hr
      simp only [Bool.and_eq_true] at h1
      exact ⟨[a], b, rfl, Or.inl ⟨a, rfl, h1.1, rfl⟩, h1.2⟩
  · rw [num2sep] at h
    split_ifs at h with h1 h2
    · simp only [Option.some.injEq, Prod.mk.injEq] at h
      obtain ⟨hv, hr⟩ := h
      subst hv
      subst hr
      simp only [Bool.and_eq_true] at h1
      exact ⟨[a, b], c, rfl, Or.inr ⟨a, b, rfl, h1.1.1, h1.1.2, rfl⟩, h1.2⟩
    · simp only [Option.some.injEq, Prod.mk.injEq] at h
      obtain ⟨hv, hr⟩ := h
      subst hv
      subst hr
      simp only [Bool.and_eq_true] at h2
      exact ⟨[a], b, rfl, Or.inl ⟨a, rfl, h2.1, rfl⟩, h2.2⟩

theorem num4b_sound {cs : List Char} {v : Nat} {lc : Char} {r : List Char}
    (h : num4b cs = some (v, lc, r)) :
    ∃ a b c d, cs = a :: b :: c :: d :: r ∧ a.isDigit = true ∧ b.isDigit = true ∧
      c.isDigit = true ∧ d.isDigit = true ∧ lc = d ∧
      v = 1000 * digitVal a + 100 * digitVal b + 10 * digitVal c + digitVal d ∧
      nextNonWord r = true := by
  rcases cs with _ | ⟨a, _ | ⟨b, _ | ⟨c, _ | ⟨d, rest⟩⟩⟩⟩
  · simp [num4b] at h
  · simp [num4b] at h
  · simp [num4b] at h
  · simp [num4b] at h
  · rw [num4b] at h
    split_ifs at h with h1
    · simp only [Option.some.injEq, Prod.mk.injEq] at h
      obtain ⟨hv, hlc, hr⟩ := h
      subst hv
      subst hlc
      subst hr
      simp only [Bool.and_eq_true] at h1
      exact ⟨a, b, c, d, rfl, h1.1.1.1.1, h1.1.1.1.2, h1.1.1.2, h1.1.2, rfl, rfl, h1.2⟩

theorem matchMDYAt_sound {prev : Option Char} {cs : List Char} {mo da y : Nat}
    {lc : Char} {rest : List Char}
    (h : matchMDYAt prev cs = some ((mo, da, y), lc, rest)) :
    ∃ g1 t1 g2 t2 w1 w2 w3 w4,
      cs = g1 ++ t1 :: g2 ++ t2 :: w1 :: w2 :: w3 :: w4 :: rest ∧
      twoDigitGroup g1 mo ∧ isSep t1 = true ∧ twoDigitGroup g2 da ∧ isSep t2 = true ∧
      w1.isDigit = true ∧ w2.isDigit = true ∧ w3.isDigit = true ∧ w4.isDigit = true ∧
      lc = w4 := by
  unfold matchMDYAt at h
  split_ifs at h with hb
  · split at h
    next mo1 r1 heq1 =>
      split at h
      next da1 r2 heq2 =>
        split at h
        next y1 lc1 r3 heq3 =>
          simp only [Option.some.injEq, Prod.mk.injEq] at h
          obtain ⟨⟨hmo, hda, hy⟩, hlc, hr⟩ := h
          subst hmo
          subst hda
          subst hlc
          subst hr
          rcases num2sep_sound heq1 with ⟨g1, t1, hcs1, hg1, ht1⟩
          rcases num2sep_sound heq2 with ⟨g2, t2, hcs2, hg2, ht2⟩
          rcases num4b_sound heq3 with ⟨a, b, c, d, hcs3, ha, hb2, hc2, hd2, hlcd, hv, hnw⟩
          refine ⟨g1, t1, g2, t2, a, b, c, d, ?_, hg1, ht1, hg2, ht2, ha, hb2, hc2, hd2, hlcd⟩
          rw [hcs1, hcs2, hcs3]
          simp
        next heq3 => simp at h
      next heq2 => simp at h
    next heq1 => simp at h

theorem matchMDYAt_at_occurrence {prev : Option Char} {mcs dcs ycs : List Char}
    {s1 s2 : Char} {mo da y : Nat} {post : List Char}
    (hsh : mdyShape mcs s1 dcs s2 ycs mo da y) (hb : boundaryOK prev = true)
    (hpost : nextNonWord post = true) :
    ∃ lc, matchMDYAt prev (mcs ++ s1 :: dcs ++ s2 :: ycs ++ post) =
      some ((mo, da, y), lc, post) := by
  obtain ⟨hm, hs1, hd, hs2, a, b, c, d, rfl, ha, hb4, hc4, hd4, rfl⟩ := hsh
  have hs1d := sep_not_digit hs1
  have hs2d := sep_not_digit hs2
  refine ⟨d, ?_⟩
  unfold matchMDYAt
  rw [if_pos hb]
  rcases hm with ⟨m1, rfl, hm1, rfl⟩ | ⟨m1, m2, rfl, hm1, hm2, rfl⟩ <;>
    rcases hd with ⟨d1, rfl, hd1, rfl⟩ | ⟨d1, d2, rfl, hd1, hd2, rfl⟩ <;>
    simp only [List.cons_append, List.singleton_append, List.nil_append]
  · simp [num2sep, num4b, hm1, hd1, hs1, hs2, hs1d, hs2d, ha, hb4, hc4, hd4, hpost]
  · simp [num2sep, num4b, hm1, hd1, hd2, hs1, hs2, hs1d, hs2d, ha, hb4, hc4, hd4, hpost]
  · simp [num2sep, num4b, hm1, hm2, hd1, hs1, hs2, hs1d, hs2d, ha, hb4, hc4, hd4, hpost]
  · simp [num2sep, num4b, hm1, hm2, hd1, hd2, hs1, hs2, hs1d, hs2d, ha, hb4, hc4, hd4, hpost]

theorem sep_digit_contra {c : Char} (h1 : isSep c = true) (h2 : c.isDigit = true) :
    False := by
  rw [sep_not_digit h1] at h2
  exact Bool.false_ne_true h2

theorem twoDigitGroup_digits {g : List Char} {v : Nat} (h : twoDigitGroup g v) :
    (∀ c ∈ g, c.isDigit = true) ∧ g ≠ [] := by
  rcases h with ⟨a, rfl, ha, _⟩ | ⟨a, b, rfl, ha, hb, _⟩
  · refine ⟨?_, by simp⟩
    intro c hc
    rcases List.mem_singleton.mp hc with rfl
    exact ha
  · refine ⟨?_, by simp⟩
    intro c hc
    rcases (by simpa using hc : c = a ∨ c = b) with rfl | rfl
    · exact ha
    · exact hb

theorem last_mem_of_append (A B : List Char) (hB : B ≠ []) :
    ∃ c, (A ++ B).getLast? = some c ∧ c ∈ B := by
  refine ⟨B.getLast hB, ?_, List.getLast_mem hB⟩
  rw [List.getLast?_append_of_ne_nil A hB]
  exact (List.getLast?_eq_getLast B hB)

theorem last_digits_contra {u : List Char} (A B : List Char)
    (hlast : ∀ c, u.getLast? = some c → isWordChar c = false)
    (hu : u = A ++ B) (hB : B ≠ []) (hBdig : ∀ c ∈ B, c.isDigit = true) : False := by
  rcases last_mem_of_append A B hB with ⟨c, hc1, hc2⟩
  have h1 := hlast c (by rw [hu]; exact hc1)
  have h2 := digit_isWordChar (hBdig c hc2)
  rw [h1] at h2
  exact Bool.false_ne_true h2

theorem append_eq_append_of_length_le {α : Type} {a b c d : List α}
    (h : a ++ b = c ++ d) (hlen : c.length ≤ a.length) :
    ∃ e, a = c ++ e ∧ d = e ++ b := by
  rcases List.append_eq_append_iff.mp h with ⟨e, he1, he2⟩ | ⟨e, he1, he2⟩
  · have hlen2 := congrArg List.length he1
    simp [List.length_append] at hlen2
    have he : e = [] := List.length_eq_zero.mp (by omega)
    subst he
    refine ⟨[], by simpa using he1.symm, by simpa using he2.symm⟩
  · exact ⟨e, he1, he2⟩

theorem consumed_suffix_cases {u w g1 g2 : List Char} {t1 t2 : Char}
    {q1 q2 q3 q4 : Char}
    (heq : u ++ w = g1 ++ t1 :: g2 ++ t2 :: [q1, q2, q3, q4])
    (hu : u ≠ []) (hlast : ∀ c, u.getLast? = some c → isWordChar c = false)
    (hg1 : ∀ c ∈ g1, c.isDigit = true) (hg1n : g1 ≠ [])
    (hg2 : ∀ c ∈ g2, c.isDigit = true) (hg2n : g2 ≠ [])
    (hq : q1.isDigit = true ∧ q2.isDigit = true ∧ q3.isDigit = true ∧ q4.isDigit = true) :
    w = g2 ++ t2 :: [q1, q2, q3, q4] ∨ w = [q1, q2, q3, q4] := by
  have hqall : ∀ c ∈ [q1, q2, q3, q4], c.isDigit = true := by
    intro c hc
    rcases (by simpa using hc : c = q1 ∨ c = q2 ∨ c = q3 ∨ c = q4) with rfl | rfl | rfl | rfl
    · exact hq.1
    · exact hq.2.1
    · exact hq.2.2.1
    · exact hq.2.2.2
  rcases List.append_eq_append_iff.mp heq with ⟨e, he1, he2⟩ | ⟨e, he1, he2⟩
  · -- he1 : g1 ++ t1 :: g2 = u ++ e, he2 : w = e ++ [t2,q1,q2,q3,q4]
    rcases List.append_eq_append_iff.mp he1.symm with ⟨f, hf1, hf2⟩ | ⟨f, hf1, hf2⟩
    · -- hf1 : g1 = u ++ f : u is a prefix of g1, so u ends in a digit
      exfalso
      have hgl := List.getLast?_eq_getLast u hu
      have hcw := hlast _ hgl
      have hcmem : u.getLast hu ∈ g1 := by
        rw [hf1]
        exact List.mem_append_left f (List.getLast_mem hu)
      have hd := digit_isWordChar (hg1 _ hcmem)
      rw [hcw] at hd
      exact Bool.false_ne_true hd
    · -- hf1 : u = g1 ++ f, hf2 : t1 :: g2 = f ++ e
      rcases f with _ | ⟨f0, f2⟩
      · exact (last_digits_contra [] g1 hlast (by simpa using hf1) hg1n hg1).elim
      · obtain ⟨rfl, hf3⟩ : t1 = f0 ∧ g2 = f2 ++ e := by
          simpa using hf2
        rcases f2 with _ | ⟨y0, y2⟩
        · -- u consumed exactly g1 and t1: the rest starts at g2
          left
          rw [he2]
          simp only [List.nil_append] at hf3
          rw [← hf3]
        · exfalso
          refine last_digits_contra (g1 ++ [t1]) (y0 :: y2) hlast ?_ (by simp) ?_
          · rw [hf1]
            simp
          · intro c hc
            exact hg2 c (by rw [hf3]; exact List.mem_append_left e hc)
  · -- he1 : u = (g1 ++ t1 :: g2) ++ e, he2 : [t2,q1,q2,q3,q4] = e ++ w
    rcases e with _ | ⟨a0, e⟩
    · -- u consumed exactly g1 t1 g2, hence ends in a digit of g2
      exact (last_digits_contra (g1 ++ [t1]) g2 hlast (by rw [he1]; simp)
        hg2n hg2).elim
    · obtain ⟨rfl, he3⟩ : t2 = a0 ∧ [q1, q2, q3, q4] = e ++ w := by
        simpa using he2
      rcases e with _ | ⟨a1, e⟩
      · -- u consumed through t2: the rest is the year group
        right
        simpa using he3.symm
      · obtain ⟨rfl, he4⟩ : q1 = a1 ∧ [q2, q3, q4] = e ++ w := by
          simpa using he3
        exfalso
        refine last_digits_contra ((g1 ++ t1 :: g2) ++ [t2]) (q1 :: e) hlast ?_
          (by simp) ?_
        · rw [he1]
          simp
        · intro c hc
          rcases List.mem_cons.mp hc with rfl | hc
          · exact hq.1
          · have hcy : c ∈ [q2, q3, q4] := by
              rw [he4]
              exact List.mem_append_left w hc
            rcases (by simpa using hcy : c = q2 ∨ c = q3 ∨ c = q4) with rfl | rfl | rfl
            · exact hq.2.1
            · exact hq.2.2.1
            · exact hq.2.2.2

theorem matchMDYAt_no_cross {prev : Option Char} {u post mcs dcs ycs : List Char}
    {s1 s2 : Char} {mo da y mo2 da2 y2 : Nat} {lc : Char} {rest : List Char}
    (hsh : mdyShape mcs s1 dcs s2 ycs mo da y)
    (hu : u ≠ []) (hlast : ∀ c, u.getLast? = some c → isWordChar c = false)
    (h : matchMDYAt prev (u ++ (mcs ++ s1 :: dcs ++ s2 :: ycs ++ post)) =
      some ((mo2, da2, y2), lc, rest)) :
    ∃ u2, u2 ≠ [] ∧ u2.length < u.length ∧
      rest = u2 ++ (mcs ++ s1 :: dcs ++ s2 :: ycs ++ post) ∧
      u2.getLast? = u.getLast? := by
  obtain ⟨hm, hs1, hd, hs2, hyg⟩ := hsh
  obtain ⟨a, b, c, d, rfl, ha4, hb4, hc4, hd4, hyv⟩ := hyg
  have hs1d := sep_not_digit hs1
  have hs2d := sep_not_digit hs2
  rcases matchMDYAt_sound h with
    ⟨g1, t1, g2, t2, q1, q2, q3, q4, hcs, hg1, ht1, hg2, ht2, hq1, hq2, hq3, hq4, hlcq⟩
  have ht1d := sep_not_digit ht1
  have ht2d := sep_not_digit ht2
  obtain ⟨hg1d, hg1n⟩ := twoDigitGroup_digits hg1
  obtain ⟨hg2d, hg2n⟩ := twoDigitGroup_digits hg2
  have hcs2 : u ++ (mcs ++ s1 :: dcs ++ s2 :: (a :: b :: c :: d :: post)) =
      ((g1 ++ t1 :: g2) ++ [t2, q1, q2, q3, q4]) ++ rest := by
    have hx := hcs
    simp only [List.cons_append, List.singleton_append, List.nil_append,
      List.append_assoc] at hx ⊢
    exact hx
  by_cases hlen : ((g1 ++ t1 :: g2) ++ [t2, q1, q2, q3, q4]).length ≤ u.length
  · obtain ⟨e, hue, hreste⟩ := append_eq_append_of_length_le hcs2 hlen
    have hene : e ≠ [] := by
      rintro rfl
      simp only [List.append_nil] at hue
      refine last_digits_contra ((g1 ++ t1 :: g2) ++ [t2, q1, q2, q3]) [q4] hlast ?_
        (by simp) ?_
      · rw [hue]
        simp
      · intro x hx
        rcases List.mem_singleton.mp hx with rfl
        exact hq4
    refine ⟨e, hene, ?_, ?_, ?_⟩
    · have hl := congrArg List.length hue
      simp [List.length_append] at hl
      omega
    · rw [hreste]
      simp only [List.cons_append, List.singleton_append, List.nil_append,
        List.append_assoc]
    · rw [hue, List.getLast?_append_of_ne_nil _ hene]
  · push_neg at hlen
    exfalso
    obtain ⟨w, hcw, hOw⟩ := append_eq_append_of_length_le hcs2.symm (le_of_lt hlen)
    rcases consumed_suffix_cases hcw.symm hu hlast hg1d hg1n hg2d hg2n
      ⟨hq1, hq2, hq3, hq4⟩ with rfl | rfl
    · rcases hm with ⟨m1, rfl, hm1, hmv⟩ | ⟨m1, m2, rfl, hm1, hm2, hmv⟩ <;>
        rcases hg2 with ⟨x1, rfl, hx1, hxv⟩ | ⟨x1, x2, rfl, hx1, hx2, hxv⟩ <;>
        rcases hd with ⟨e1, rfl, he1, hev⟩ | ⟨e1, e2, rfl, he1, he2, hev⟩ <;>
        simp only [List.cons_append, List.singleton_append, List.nil_append,
          List.append_assoc, List.cons.injEq] at hOw <;>
        simp_all
    · rcases hm with ⟨m1, rfl, hm1, hmv⟩ | ⟨m1, m2, rfl, hm1, hm2, hmv⟩ <;>
        simp only [List.cons_append, List.singleton_append, List.nil_append,
          List.append_assoc, List.cons.injEq] at hOw <;>
        simp_all

theorem toDateSafeIso_of_valid {y m d : Nat} (h : dateValid y m d = true) :
    toDateSafeIso y m d = some (iso_date ⟨y, m, d⟩) := by
  unfold toDateSafeIso to_date_safe
  rw [if_pos h]
  rfl

theorem scanF_mdy_contains {mcs dcs ycs post : List Char} {s1 s2 : Char}
    {mo da y : Nat} (hsh : mdyShape mcs s1 dcs s2 ycs mo da y)
    (hpost : nextNonWord post = true) :
    ∀ (fuel : Nat) (u : List Char) (prev : Option Char),
      (u ++ (mcs ++ s1 :: dcs ++ s2 :: ycs ++ post)).length ≤ fuel →
      (u = [] → boundaryOK prev = true) →
      (∀ c, u.getLast? = some c → isWordChar c = false) →
      (mo, da, y) ∈
        scanF matchMDYAt fuel prev (u ++ (mcs ++ s1 :: dcs ++ s2 :: ycs ++ post)) := by
  intro fuel
  induction fuel with
  | zero =>
    intro u prev hfuel _ _
    exfalso
    simp [List.length_append] at hfuel
  | succ fuel ih =>
    intro u prev hfuel hb hlast
    rcases u with _ | ⟨c, u'⟩
    · rcases matchMDYAt_at_occurrence hsh (hb rfl) hpost with ⟨lc, hmatch⟩
      simp only [List.nil_append] at *
      have hm := hsh.1
      rcases hm with ⟨m1, hmeq, h1, h2⟩ | ⟨m1, m2, hmeq, h1, h2, h3⟩ <;>
        rw [hmeq] at hmatch ⊢ <;>
        simp only [List.cons_append, List.singleton_append] at hmatch ⊢ <;>
        simp only [scanF, hmatch] <;>
        exact List.mem_cons_self _ _
    · simp only [List.cons_append]
      rcases hmt : matchMDYAt prev (c :: (u' ++ (mcs ++ s1 :: dcs ++ s2 :: ycs ++ post)))
        with _ | ⟨⟨vm, vd, vy⟩, lc2, rest⟩
      · simp only [scanF, hmt]
        refine ih u' (some c) ?_ ?_ ?_
        · have h1 := hfuel
          simp [List.length_append] at h1 ⊢
          omega
        · rintro rfl
          have hc := hlast c (by simp)
          simp [boundaryOK, hc]
        · intro x hx
          rcases u' with _ | ⟨d2, u''⟩
          · simp at hx
          · refine hlast x ?_
            rw [List.getLast?_cons_cons]
            exact hx
      · have hmt' : matchMDYAt prev
            ((c :: u') ++ (mcs ++ s1 :: dcs ++ s2 :: ycs ++ post)) =
            some ((vm, vd, vy), lc2, rest) := hmt
        obtain ⟨u2, hu2ne, hu2len, hrest, hu2last⟩ :=
          matchMDYAt_no_cross hsh (List.cons_ne_nil c u') hlast hmt'
        simp only [scanF, hmt]
        refine List.mem_cons_of_mem _ ?_
        rw [hrest]
        refine ih u2 (some lc2) ?_ ?_ ?_
        · have h1 := hfuel
          have h2l := hu2len
          simp [List.length_append] at h1 h2l ⊢
          omega
        · intro h2
          exact absurd h2 hu2ne
        · intro x hx
          refine hlast x ?_
          rw [← hu2last]
          exact hx

/-- C4 (amended): `extract_dates` matches the numeric month-first family
exhaustively; for every text containing a word-boundary-delimited substring of
the month-first numeric shape `M[M] sep D[D] sep YYYY` that denotes a valid
calendar date, the returned list contains that date's ISO string.  (The
boundary condition is required: the regex anchors the family with `\b` on both
sides, so an occurrence preceded or followed by a word character is not
matched, as the counterexample shows.) -/
theorem c4_mdy_containment {pre post mcs dcs ycs : List Char} {s1 s2 : Char}
    {mo da y : Nat}
    (hsh : mdyShape mcs s1 dcs s2 ycs mo da y)
    (hpre : boundaryLeft pre) (hpost : boundaryRight post)
    (hvalid : dateValid y mo da = true) :
    iso_date ⟨y, mo, da⟩ ∈
      extract_dates (pre ++ (mcs ++ s1 :: dcs ++ s2 :: ycs ++ post)) := by
  have hnw : nextNonWord post = true := by
    rcases post with _ | ⟨p, ps⟩
    · rfl
    · simp [nextNonWord, hpost p rfl]
  have htne : pre ++ (mcs ++ s1 :: dcs ++ s2 :: ycs ++ post) ≠ [] := by
    intro h
    have hl := congrArg List.length h
    simp [List.length_append] at hl
  unfold extract_dates
  rw [if_neg htne]
  rw [mem_dedupFirstBy_iff_id]
  unfold extractFound
  refine List.mem_append_left _ (List.mem_append_right _ ?_)
  refine List.mem_filterMap.mpr ⟨(mo, da, y), ?_, ?_⟩
  · unfold scanAll
    exact scanF_mdy_contains hsh hnw _ pre none (le_refl _) (fun _ => rfl) hpre
  · simpa using toDateSafeIso_of_valid hvalid

/-- C4 as literally stated fails: the text `111-12-2024` contains the
substring `11-12-2024` of the month-first numeric shape denoting the valid
date 2024-11-12, yet the extractor returns no date at all, because the
leading `1` sits against the substring and defeats the regex's left word
boundary. -/
theorem c4_counterexample :
    ∃ pre mcs dcs ycs post : List Char, ∃ s1 s2 : Char, ∃ mo da y : Nat,
      ('1' :: '1' :: '1' :: '-' :: '1' :: '2' :: '-' :: '2' :: '0' :: '2' :: '4' :: []) =
        pre ++ (mcs ++ s1 :: dcs ++ s2 :: ycs ++ post) ∧
      mdyShape mcs s1 dcs s2 ycs mo da y ∧ dateValid y mo da = true ∧
      iso_date ⟨y, mo, da⟩ ∉
        extract_dates
          ('1' :: '1' :: '1' :: '-' :: '1' :: '2' :: '-' :: '2' :: '0' :: '2' :: '4' :: []) := by
  refine ⟨['1'], ['1', '1'], ['1', '2'], ['2', '0', '2', '4'], [], '-', '-',
    11, 12, 2024, by decide, ?_, by decide, by decide⟩
  exact ⟨Or.inr ⟨'1', '1', rfl, by decide, by decide, by decide⟩, by decide,
    Or.inr ⟨'1', '2', rfl, by decide, by decide, by decide⟩, by decide,
    ⟨'2', '0', '2', '4', rfl, by decide, by decide, by decide, by decide, by decide⟩⟩

theorem c4_witness :
    mdyShape ['1', '1'] '-' ['1', '2'] '-' ['2', '0', '2', '4'] 11 12 2024 ∧
    boundaryLeft [] ∧ boundaryRight [] ∧ dateValid 2024 11 12 = true ∧
    iso_date ⟨2024, 11, 12⟩ ∈
      extract_dates
        ([] ++ (['1', '1'] ++ '-' :: ['1', '2'] ++ '-' :: ['2', '0', '2', '4'] ++ [])) := by
  have hsh : mdyShape ['1', '1'] '-' ['1', '2'] '-' ['2', '0', '2', '4'] 11 12 2024 :=
    ⟨Or.inr ⟨'1', '1', rfl, by decide, by decide, by decide⟩, by decide,
      Or.inr ⟨'1', '2', rfl, by decide, by decide, by decide⟩, by decide,
      ⟨'2', '0', '2', '4', rfl, by decide, by decide, by decide, by decide, by decide⟩⟩
  have hpre : boundaryLeft ([] : List Char) := by
    intro c h
    simp at h
  have hpost : boundaryRight ([] : List Char) := by
    intro c h
    simp at h
  exact ⟨hsh, hpre, hpost, by decide, c4_mdy_containment hsh hpre hpost (by decide)⟩

end ComplianceApp
